import Mathlib

/-!
Verification development for the `copilot_translations_converter` repository:
a shallow embedding of the JSON-to-spreadsheet exporter (`json_to_excel.py`)
and the spreadsheet-to-JSON importer (`excel_to_json.py`), together with
proofs about the shape-mapping logic (flattening, sheet naming, vertical and
horizontal table building, record reconstruction, value coercion and the
newline-delimited loader).

Python strings are modelled through their character lists (`String.data`),
Python `dict`s as ordered association lists with first-position/last-value
insertion semantics, pandas data frames as a list of column names plus a row
list of cells, and machine numbers as `Int`/`ℚ`.  External collaborators
(the spreadsheet reader and writer, the JSON parser) are modelled from the
spec's description of them and are marked as such in their doc comments.
-/

namespace CopilotConv

/-! ### Decimal rendering of naturals (Python `str(i)` for non-negative ints) -/

/-- Decimal digit character for a value below ten. -/
def digitChar (n : Nat) : Char := Char.ofNat (48 + n)

/-- Decimal digits of a natural number, most significant first.  The first
argument is recursion fuel; every use instantiates it with a value at least
as large as the number itself, which always suffices. -/
def natDigitsCore : Nat → Nat → List Char
  | 0, n => [digitChar (n % 10)]
  | fuel+1, n => if n < 10 then [digitChar n] else natDigitsCore fuel (n / 10) ++ [digitChar (n % 10)]

/-- Decimal rendering of a natural number, as Python `str` produces for a
non-negative integer. -/
def natStr (n : Nat) : String := String.mk (natDigitsCore n n)

/-- Decimal rendering of an integer, as Python `str` produces for an `int`. -/
def intStr (n : Int) : String :=
  if n < 0 then "-" ++ natStr n.natAbs else natStr n.natAbs

/-- Numeric value encoded by a digit string, used to invert `natDigitsCore`. -/
def decodeDigits (l : List Char) : Nat :=
  l.foldl (fun a c => 10 * a + (c.toNat - 48)) 0

/-! ### Python string helpers -/

/-- Number of characters of a string (Python `len`). -/
def pyLen (s : String) : Nat := s.data.length

/-- Python slice `l[:k]` on a character list: a negative bound counts from
the end of the list and is clamped at zero. -/
def sliceTake (l : List Char) (k : Int) : List Char :=
  l.take (if k < 0 then ((l.length : Int) + k).toNat else k.toNat)

/-- ASCII whitespace recognised by the model of Python `str.strip`. -/
def pySpaceChars : List Char := [' ', '\t', '\n', '\r', Char.ofNat 11, Char.ofNat 12]

/-- Whether a character is stripped by Python `str.strip`. -/
def isPySpace (c : Char) : Bool := pySpaceChars.contains c

/-- Model of Python `str.strip()`: drop leading and trailing whitespace. -/
def pyStrip (s : String) : String :=
  String.mk (((s.data.dropWhile isPySpace).reverse.dropWhile isPySpace).reverse)

/-! ### The JSON data model (values produced by Python's json parser) -/

/-- A parsed JSON value.  Numbers keep the int/float distinction the Python
json module makes; floats are idealised as rationals.  Object entries keep
insertion order, as Python dicts do. -/
inductive Json where
  | null
  | bool (b : Bool)
  | int (n : Int)
  | float (q : ℚ)
  | str (s : String)
  | arr (elems : List Json)
  | obj (entries : List (String × Json))

/-- Whether a JSON value is a Python dict (`isinstance(v, dict)`). -/
def Json.isObj : Json → Bool
  | .obj _ => true
  | _ => false

/-- Whether a JSON value is a Python list (`isinstance(v, list)`). -/
def Json.isArr : Json → Bool
  | .arr _ => true
  | _ => false

/-- Whether a JSON value is a scalar or null (neither a list nor a dict). -/
def scalarOrNull : Json → Bool
  | .arr _ => false
  | .obj _ => false
  | _ => true

/-- Entries of a JSON object (and `[]` on any other constructor). -/
def asObj : Json → List (String × Json)
  | .obj kvs => kvs
  | _ => []

/-! ### Python dict semantics on association lists -/

/-- Keys of an association list, in order. -/
def keys (m : List (String × Json)) : List String := m.map Prod.fst

/-- Python dict assignment `d[k] = v`: an existing key keeps its position and
gets the new value, a new key is appended at the end. -/
def dictInsert (m : List (String × Json)) (k : String) (v : Json) : List (String × Json) :=
  if k ∈ keys m then m.map (fun p => if p.1 = k then (k, v) else p) else m ++ [(k, v)]

/-- Python `dict(items)`: fold the item list into an initially empty dict.
Duplicate keys keep the first position and the last value. -/
def listToDict (items : List (String × Json)) : List (String × Json) :=
  items.foldl (fun acc kv => dictInsert acc kv.1 kv.2) []

/-! ### The key flattener (`flatten_dict` in `json_to_excel.py`) -/

/-- The item list built by `flatten_dict` for entries `kvs` under prefix
`parent`: nested dict values are recursively flattened (each recursive call
returning the items of its own `dict(items)`), every other value is a leaf. -/
def flattenItems (sep : String) : String → List (String × Json) → List (String × Json)
  | _, [] => []
  | parent, (k, v) :: rest =>
    let newKey := if parent = "" then k else parent ++ sep ++ k
    (match v with
     | .obj o => listToDict (flattenItems sep newKey o)
     | _ => [(newKey, v)]) ++ flattenItems sep parent rest

/-- `flatten_dict(d, parent_key, sep)` from `json_to_excel.py`. -/
def flatten_dict (kvs : List (String × Json)) (parent : String) (sep : String) :
    List (String × Json) :=
  listToDict (flattenItems sep parent kvs)

/-! ### Cells as delivered by the spreadsheet reader (import side)

The importer inspects each cell with `pd.isna` and `isinstance` checks on
the numpy runtime types.  A `Cell` records which of those disjoint classes
the value read from the sheet belongs to.  The `raising` constructor stands
for a value on which some coercion step raises an exception; it carries the
result of Python `str` on the value and whether the value is Python `None`,
which is all the fallback branch of the importer looks at. -/

inductive Cell where
  | na
  | int (n : Int)
  | float (q : ℚ)
  | bool (b : Bool)
  | str (s : String)
  | array (elems : List Json)
  | raising (rep : String) (isNone : Bool)

/-- Bounded search for the least `k` with `den` dividing `10 ^ k`, used by
the decimal rendering model below. -/
def decExpSearch : Nat → Nat → Nat → Option Nat
  | 0, _, _ => none
  | fuel+1, den, k => if den ∣ 10 ^ k then some k else decExpSearch fuel den (k + 1)

/-- Digits of `n` padded with leading zeros to width `k`. -/
def natStrPad (k n : Nat) : List Char :=
  List.replicate (k - (natDigitsCore n n).length) '0' ++ natDigitsCore n n

/-- Modelled from the spec: textual rendering of a numeric cell value by the
external environment (Python `str` on a float).  Values with a finite
decimal expansion render exactly; the fallback case cannot arise for binary
floating point values. -/
def floatStrModel (q : ℚ) : String :=
  match decExpSearch (q.den + 1) q.den 0 with
  | some k =>
    let sign := if q.num < 0 then "-" else ""
    let scaled := q.num.natAbs * 10 ^ k / q.den
    if k = 0 then sign ++ natStr scaled ++ ".0"
    else sign ++ natStr (scaled / 10 ^ k) ++ "." ++ String.mk (natStrPad k (scaled % 10 ^ k))
  | none => intStr q.num ++ "div" ++ natStr q.den

/-- Python `str` applied to a raw cell value.  The rendering of missing
values, booleans, ints and strings follows Python; floats and arrays go
through the modelled renderings above. -/
def pyStr : Cell → String
  | .na => "nan"
  | .int n => intStr n
  | .float q => floatStrModel q
  | .bool b => if b then "True" else "False"
  | .str s => s
  | .array _ => "array"
  | .raising r _ => r

/-- Whether the raw cell value is Python `None` (`value is not None` in the
fallback branch of the importer). -/
def Cell.cellIsNone : Cell → Bool
  | .raising _ b => b
  | _ => false

/-! ### The value coercer (`read_excel_to_json`, per-cell branch) -/

/-- The branch cascade of `read_excel_to_json` over one cell of the `Value`
column: missing values give null, numpy integers and floats are unwrapped by
`item()`, numpy arrays by `tolist()`, anything else passes through.  The
result is `none` exactly when some step raises. -/
def tryCoerce : Cell → Option Json
  | .na => some Json.null
  | .int n => some (Json.int n)
  | .float q => some (Json.float q)
  | .array xs => some (Json.arr xs)
  | .bool b => some (Json.bool b)
  | .str s => some (Json.str s)
  | .raising _ _ => none

/-- One cell of the `Value` column, including the `except` fallback of the
importer: on an exception the result is `str(value)`, or null when the raw
value is itself `None`. -/
def coerceCell (c : Cell) : Json :=
  match tryCoerce c with
  | some v => v
  | none => if c.cellIsNone then Json.null else Json.str (pyStr c)

/-- Modelled from the spec: the spreadsheet reader collaborator delivers a
numeric cell as an integer value when the stored number has no fractional
part, and as a floating point value otherwise. -/
def numCell (q : ℚ) : Cell :=
  if q.den = 1 then Cell.int q.num else Cell.float q

/-! ### Tables -/

/-- A data frame: ordered column names plus rows of cells aligned with the
columns.  Export-side tables hold JSON values; import-side tables hold the
cells delivered by the spreadsheet reader. -/
structure Table (α : Type) where
  cols : List String
  rows : List (List α)

/-- The empty data frame (`pd.DataFrame()` and `pd.DataFrame([])`): no
columns and no rows. -/
def emptyTable : Table Json := Table.mk [] []

/-- Modelled from the spec: the spreadsheet writer and reader collaborators
(write a table as rows of cells, read rows of cells back).  A scalar written
to a cell is read back as the corresponding cell value; null leaves the cell
empty, which the reader reports as missing.  Sequence and mapping values do
not occur in the cells the verified claims exercise. -/
def cellOfJson : Json → Cell
  | .null => Cell.na
  | .bool b => Cell.bool b
  | .int n => Cell.int n
  | .float q => Cell.float q
  | .str s => Cell.str s
  | .arr xs => Cell.array xs
  | .obj _ => Cell.na

/-- A written-then-reread table: every cell goes through the round trip of
the external writer and reader. -/
def toITable (t : Table Json) : Table Cell :=
  Table.mk t.cols (t.rows.map (fun r => r.map cellOfJson))

/-! ### The record reconstructor (`read_excel_to_json`) -/

/-- Cell of a row at a column index (rows are aligned with the columns; a
missing position reads as an empty cell). -/
def cellAt (row : List Cell) (i : Nat) : Cell := row.getD i Cell.na

/-- Row loop of `read_excel_to_json`: insert the stringified `Key` cell with
the coerced `Value` cell into an initially empty dict, in row order. -/
def reconstructRows (ki vi : Nat) (rows : List (List Cell)) : List (String × Json) :=
  rows.foldl (fun acc row => dictInsert acc (pyStr (cellAt row ki)) (coerceCell (cellAt row vi))) []

/-- Message corresponding to the ValueError raised when the table lacks the
required columns (the Python text quotes the column names). -/
def missingColsMsg : String := "Excel file must have Key and Value columns"

/-- `read_excel_to_json` from `excel_to_json.py`, after the external reader
has delivered the first (or requested) sheet as a table: with `Key` and
`Value` columns present the rows are folded into a flat mapping, otherwise
the import aborts. -/
def read_excel_to_json (t : Table Cell) : Except String (List (String × Json)) :=
  if "Key" ∈ t.cols ∧ "Value" ∈ t.cols then
    Except.ok (reconstructRows (t.cols.findIdx (fun c => c == "Key"))
      (t.cols.findIdx (fun c => c == "Value")) t.rows)
  else
    Except.error missingColsMsg

/-- The sheet the importer reads by default: the first one. -/
def firstSheet (frames : List (String × Table Json)) : Table Json :=
  (frames.headD ("", emptyTable)).2

/-! ### Sheet naming (`make_sheet_name` and `uniq_sheet_name`) -/

/-- The characters Excel forbids in sheet names, as listed in
`make_sheet_name`. -/
def forbiddenChars : List Char := ['[', ']', ':', '*', '?', '/', '\\']

/-- Replace a forbidden character with an underscore. -/
def cleanChar (c : Char) : Char := if c ∈ forbiddenChars then '_' else c

/-- `make_sheet_name` from `json_to_excel.py`: replace forbidden characters,
substitute `Sheet` for an empty result, truncate to 31 characters. -/
def make_sheet_name (name : String) : String :=
  let safe := name.data.map cleanChar
  String.mk ((if safe = [] then "Sheet".data else safe).take 31)

/-- The suffix `_i` appended by the collision loop of `uniq_sheet_name`. -/
def suffixChars (i : Nat) : List Char := '_' :: natDigitsCore i i

/-- One candidate of the collision loop:
`name[: 31 - len(suffix)] + suffix`. -/
def candName (name : String) (i : Nat) : String :=
  String.mk (sliceTake name.data ((31 : Int) - ((suffixChars i).length : Int)) ++ suffixChars i)

/-- The `while True` collision loop of `uniq_sheet_name`, modelled with
explicit fuel.  The fuel chosen by `uniq_sheet_name` always exceeds the
index of the first free candidate (a pigeonhole argument, see
`uniqLoop_spec` and `uniq_sheet_name_spec`), so the exhaustion branch is
never reached from there. -/
def uniqLoop (name : String) (used : List String) : Nat → Nat → String
  | i, fuel+1 => if candName name i ∈ used then uniqLoop name used (i + 1) fuel else candName name i
  | i, 0 => candName name i

/-- `uniq_sheet_name` from `json_to_excel.py`: normalise the base name, and
on a collision with an already used name walk candidates `_2`, `_3`, …
until a free one is found.  The chosen name is registered in the used set
(modelled by returning the extended set). -/
def uniq_sheet_name (base : String) (used : List String) : String × List String :=
  let name := make_sheet_name base
  if name ∈ used then
    let c := uniqLoop name used 2 (10 ^ (used.length + 1))
    (c, c :: used)
  else
    (name, name :: used)

/-! ### The table builder (`build_frames`) -/

/-- Keys of a list of column names seen for the first time, in order of
first appearance: the column union order of `pd.json_normalize` on a list
of records. -/
def dedupFirstGo (seen : List String) : List String → List String
  | [] => []
  | x :: xs => if x ∈ seen then dedupFirstGo seen xs else x :: dedupFirstGo (x :: seen) xs

/-- First-appearance deduplication of a list of column names. -/
def dedupFirst (l : List String) : List String := dedupFirstGo [] l

/-- `is_list_of_dicts` from `json_to_excel.py` (vacuously true on `[]`). -/
def is_list_of_dicts (l : List Json) : Bool := l.all Json.isObj

/-- `pd.json_normalize` on a single mapping: flatten it and produce a one
row table whose columns are the flattened keys. -/
def jsonNormalizeDict (sep : String) (kvs : List (String × Json)) : Table Json :=
  let f := flatten_dict kvs "" sep
  Table.mk (keys f) [f.map Prod.snd]

/-- `pd.json_normalize` on a list of mappings: one row per element, columns
the union of the flattened keys in first-appearance order, missing keys
filled with empty cells (modelled as null, which the writer leaves blank). -/
def jsonNormalizeList (sep : String) (l : List Json) : Table Json :=
  let flats := l.map (fun j => flatten_dict (asObj j) "" sep)
  let cols := dedupFirst ((flats.map keys).flatten)
  Table.mk cols (flats.map (fun f => cols.map (fun c => (List.lookup c f).getD Json.null)))

/-- `normalize_list` from `build_frames`: a list of dicts becomes a
record table, any other list becomes a single `value` column. -/
def normalize_list (sep : String) (l : List Json) : Table Json :=
  if is_list_of_dicts l then jsonNormalizeList sep l
  else Table.mk ["value"] (l.map (fun v => [v]))

/-- The vertical layout built by `build_frames`:
`pd.DataFrame([{"Key": k, "Value": v} for k, v in flattened.items()])`.
An empty mapping gives `pd.DataFrame([])`, which has no columns at all. -/
def verticalTable (flattened : List (String × Json)) : Table Json :=
  match flattened with
  | [] => emptyTable
  | _ => Table.mk ["Key", "Value"] (flattened.map (fun kv => [Json.str kv.1, kv.2]))

/-- The horizontal iteration of `build_frames` over the top-level entries:
list values and dict values get their own sheet (through the sheet
planner), scalars accumulate into the `scalars` dict. -/
def horizLoop (sep : String) : List (String × Json) →
    List (String × Table Json) → List String → List (String × Json) →
    List (String × Table Json) × List String × List (String × Json)
  | [], frames, used, scalars => (frames, used, scalars)
  | (k, v) :: rest, frames, used, scalars =>
    match v with
    | Json.arr l =>
      let p := uniq_sheet_name k used
      horizLoop sep rest (frames ++ [(p.1, normalize_list sep l)]) p.2 scalars
    | Json.obj o =>
      let p := uniq_sheet_name k used
      horizLoop sep rest (frames ++ [(p.1, jsonNormalizeDict sep o)]) p.2 scalars
    | _ => horizLoop sep rest frames used (dictInsert scalars k v)

/-- `build_frames` from `json_to_excel.py`. -/
def build_frames (j : Json) (root_name : String) (sep : String) (vertical : Bool) :
    List (String × Table Json) :=
  match j with
  | Json.arr l =>
    let p := uniq_sheet_name root_name []
    [(p.1, normalize_list sep l)]
  | Json.obj kvs =>
    if vertical then
      let p := uniq_sheet_name root_name []
      [(p.1, verticalTable (flatten_dict kvs "" sep))]
    else
      let st := horizLoop sep kvs [] [] []
      let withScalars :=
        if st.2.2.isEmpty then (st.1, st.2.1)
        else
          let p := uniq_sheet_name root_name st.2.1
          (st.1 ++ [(p.1, jsonNormalizeDict sep st.2.2)], p.2)
      if withScalars.1.isEmpty then
        let p := uniq_sheet_name root_name withScalars.2
        [(p.1, emptyTable)]
      else withScalars.1
  | prim =>
    if vertical then
      let p := uniq_sheet_name root_name []
      [(p.1, Table.mk ["Key", "Value"] [[Json.str "value", prim]])]
    else
      let p := uniq_sheet_name root_name []
      [(p.1, Table.mk ["value"] [[prim]])]

/-! ### The newline-delimited loader (`load_json` with `ndjson=True`) -/

/-- Line loop of `load_json` in ndjson mode.  The JSON text parser is an
external collaborator and is passed as a function; `i` is the 1-based
number of the current line.  A blank line (after stripping) is skipped, a
parse failure aborts the whole load reporting the line number and the
offending stripped line. -/
def loadNdjsonFrom (parse : String → Option Json) : Nat → List String →
    Except (Nat × String) (List Json)
  | _, [] => Except.ok []
  | i, line :: rest =>
    let s := pyStrip line
    if s = "" then loadNdjsonFrom parse (i + 1) rest
    else
      match parse s with
      | some v => Except.map (fun vs => v :: vs) (loadNdjsonFrom parse (i + 1) rest)
      | none => Except.error (i, s)

/-- `load_json` from `json_to_excel.py` restricted to the ndjson branch,
with the external JSON text parser as a parameter. -/
def load_json_ndjson (parse : String → Option Json) (lines : List String) :
    Except (Nat × String) (List Json) :=
  loadNdjsonFrom parse 1 lines

/-! ### Spec-side description of the horizontal layout (section 4.2)

These definitions follow the wording of the spec, to be compared with
`build_frames`: per-entry tables in iteration order for sequence and
mapping values, the remaining scalar entries collected by filtering, one
combined scalar table appended when any scalar exists, and one empty table
for an empty input mapping. -/

/-- Whether a top-level entry value is a scalar (neither sequence nor
mapping), following the spec's classification. -/
def isScalarEntry (v : Json) : Bool :=
  match v with
  | Json.arr _ => false
  | Json.obj _ => false
  | _ => true

/-- The dedicated tables the spec prescribes for sequence-valued and
mapping-valued top-level entries, in iteration order, threading the sheet
planner state. -/
def horizontalEntryTables (sep : String) : List (String × Json) → List String →
    List (String × Table Json) × List String
  | [], used => ([], used)
  | (k, v) :: rest, used =>
    match v with
    | Json.arr l =>
      let p := uniq_sheet_name k used
      let r := horizontalEntryTables sep rest p.2
      ((p.1, normalize_list sep l) :: r.1, r.2)
    | Json.obj o =>
      let p := uniq_sheet_name k used
      let r := horizontalEntryTables sep rest p.2
      ((p.1, jsonNormalizeDict sep o) :: r.1, r.2)
    | _ => horizontalEntryTables sep rest used

/-- The horizontal export as the spec words it. -/
def horizontalSpec (kvs : List (String × Json)) (root_name : String) (sep : String) :
    List (String × Table Json) :=
  if kvs.isEmpty then [(make_sheet_name root_name, emptyTable)]
  else
    let et := horizontalEntryTables sep kvs []
    let scalars := kvs.filter (fun kv => isScalarEntry kv.2)
    if scalars.isEmpty then et.1
    else
      let p := uniq_sheet_name root_name et.2
      et.1 ++ [(p.1, jsonNormalizeDict sep scalars)]

/-! ### Sheet-name validity and the inputs used to probe it -/

/-- The sheet-name constraints stated by the spec: non-empty, at most 31
characters, no forbidden characters. -/
def validSheetName (s : String) : Prop :=
  s.data ≠ [] ∧ s.data.length ≤ 31 ∧ ∀ c ∈ s.data, c ∉ forbiddenChars

/-- Number of top-level entries of a JSON value (zero when the root is not
a mapping). -/
def topEntryCount : Json → Nat
  | Json.obj kvs => kvs.length
  | _ => 0

/-- A 31-character sheet base name. -/
def bigB : String := String.mk (List.replicate 31 'B')

/-- Keys that all normalise to the same 31-character sheet name `bigB`. -/
def cexKey (t : Nat) : String := String.mk (List.replicate 31 'B' ++ natDigitsCore t t)

/-- The sheet name assigned to the `t`-th colliding key. -/
def cexName (t : Nat) : String := if t = 1 then bigB else candName bigB t

/-- A mapping with `10 ^ 30` dict-valued entries whose keys all normalise
to the same sheet name, driving the collision counter of
`uniq_sheet_name` past the width the 31-character cap can absorb. -/
def cexJson : Json :=
  Json.obj ((List.range' 1 (10 ^ 30)).map (fun t => (cexKey t, Json.obj [])))

/-! ## Lemmas about decimal digits -/

theorem digitChar_toNat {n : Nat} (h : n < 10) : (digitChar n).toNat = 48 + n := by
  interval_cases n <;> rfl

theorem natDigitsCore_ne_nil (fuel n : Nat) : natDigitsCore fuel n ≠ [] := by
  cases fuel with
  | zero => simp [natDigitsCore]
  | succ fuel =>
    by_cases h : n < 10 <;> simp [natDigitsCore, h]

theorem decodeDigits_append_singleton (l : List Char) (c : Char) :
    decodeDigits (l ++ [c]) = 10 * decodeDigits l + (c.toNat - 48) := by
  simp [decodeDigits, List.foldl_append]

theorem decodeDigits_natDigitsCore : ∀ fuel n, n ≤ fuel →
    decodeDigits (natDigitsCore fuel n) = n := by
  intro fuel
  induction fuel with
  | zero =>
    intro n hn
    have hn0 : n = 0 := by omega
    subst hn0
    decide
  | succ fuel ih =>
    intro n hn
    by_cases h : n < 10
    · simp [natDigitsCore, h, decodeDigits, digitChar_toNat h]
    · have h10 : 10 ≤ n := Nat.le_of_not_lt h
      have hdiv : n / 10 ≤ fuel := by
        have := Nat.div_lt_self (by omega : 0 < n) (by norm_num : 1 < 10)
        omega
      have hmod : n % 10 < 10 := Nat.mod_lt _ (by norm_num)
      simp only [natDigitsCore, if_neg h, decodeDigits_append_singleton, ih _ hdiv,
        digitChar_toNat hmod]
      omega

theorem natDigitsCore_length_le_iff : ∀ fuel n d, n ≤ fuel →
    ((natDigitsCore fuel n).length ≤ d + 1 ↔ n < 10 ^ (d + 1)) := by
  intro fuel
  induction fuel with
  | zero =>
    intro n d hn
    have hn0 : n = 0 := by omega
    subst hn0
    apply iff_of_true
    · simp [natDigitsCore]
    · exact Nat.pos_pow_of_pos _ (by norm_num)
  | succ fuel ih =>
    intro n d hn
    by_cases h : n < 10
    · simp only [natDigitsCore, if_pos h, List.length_singleton]
      apply iff_of_true (by omega)
      calc n < 10 ^ 1 := by simpa using h
      _ ≤ 10 ^ (d + 1) := Nat.pow_le_pow_right (by norm_num) (by omega)
    · have h10 : 10 ≤ n := Nat.le_of_not_lt h
      have hdiv : n / 10 ≤ fuel := by
        have := Nat.div_lt_self (by omega : 0 < n) (by norm_num : 1 < 10)
        omega
      simp only [natDigitsCore, if_neg h, List.length_append, List.length_singleton]
      cases d with
      | zero =>
        have hne := natDigitsCore_ne_nil fuel (n / 10)
        have hpos : 0 < (natDigitsCore fuel (n / 10)).length := List.length_pos.mpr hne
        constructor
        · intro hc; omega
        · intro hc; simp at hc; omega
      | succ e =>
        have := ih (n / 10) e hdiv
        constructor
        · intro hc
          have hlen : (natDigitsCore fuel (n / 10)).length ≤ e + 1 := by omega
          have hlt := this.mp hlen
          have : n < 10 ^ (e + 1) * 10 := (Nat.div_lt_iff_lt_mul (by norm_num)).mp hlt
          calc n < 10 ^ (e + 1) * 10 := this
          _ = 10 ^ (e + 1 + 1) := by ring
        · intro hc
          have hlt : n / 10 < 10 ^ (e + 1) := by
            apply (Nat.div_lt_iff_lt_mul (by norm_num)).mpr
            calc n < 10 ^ (e + 1 + 1) := hc
            _ = 10 ^ (e + 1) * 10 := by ring
          have hlen := (ih (n / 10) e hdiv).mpr hlt
          omega

theorem natDigitsCore_digit_bounds : ∀ fuel n c, c ∈ natDigitsCore fuel n →
    48 ≤ c.toNat ∧ c.toNat ≤ 57 := by
  intro fuel
  induction fuel with
  | zero =>
    intro n c hc
    have hmod : n % 10 < 10 := Nat.mod_lt _ (by norm_num)
    simp [natDigitsCore] at hc
    subst hc
    rw [digitChar_toNat hmod]
    omega
  | succ fuel ih =>
    intro n c hc
    by_cases h : n < 10
    · simp [natDigitsCore, h] at hc
      subst hc
      rw [digitChar_toNat h]
      omega
    · have hmod : n % 10 < 10 := Nat.mod_lt _ (by omega)
      simp [natDigitsCore, h] at hc
      rcases hc with hc | hc
      · exact ih _ _ hc
      · subst hc
        rw [digitChar_toNat hmod]
        omega

theorem natDigitsCore_injective {i j : Nat} (h : natDigitsCore i i = natDigitsCore j j) :
    i = j := by
  have hi := decodeDigits_natDigitsCore i i le_rfl
  have hj := decodeDigits_natDigitsCore j j le_rfl
  rw [← hi, ← hj, h]

/-! ## Equations for the flattener -/

theorem flattenItems_nil (sep parent : String) : flattenItems sep parent [] = [] := by
  simp [flattenItems]

theorem flattenItems_cons (sep parent k : String) (v : Json) (rest : List (String × Json)) :
    flattenItems sep parent ((k, v) :: rest) =
      (match v with
       | Json.obj o =>
         listToDict (flattenItems sep (if parent = "" then k else parent ++ sep ++ k) o)
       | _ => [(if parent = "" then k else parent ++ sep ++ k, v)]) ++
        flattenItems sep parent rest := by
  cases v <;> simp [flattenItems]

theorem flattenItems_cons_leaf (sep parent k : String) (v : Json) (rest : List (String × Json))
    (h : v.isObj = false) :
    flattenItems sep parent ((k, v) :: rest) =
      (if parent = "" then k else parent ++ sep ++ k, v) :: flattenItems sep parent rest := by
  cases v <;> simp [flattenItems] <;> simp [Json.isObj] at h

theorem flattenItems_append (sep parent : String) (l₁ l₂ : List (String × Json)) :
    flattenItems sep parent (l₁ ++ l₂) =
      flattenItems sep parent l₁ ++ flattenItems sep parent l₂ := by
  induction l₁ with
  | nil => simp [flattenItems_nil]
  | cons kv l₁ ih =>
    obtain ⟨k, v⟩ := kv
    rw [List.cons_append, flattenItems_cons, flattenItems_cons, ih, List.append_assoc]

/-! ## Python dict lemmas -/

theorem keys_append (m₁ m₂ : List (String × Json)) : keys (m₁ ++ m₂) = keys m₁ ++ keys m₂ :=
  List.map_append _ _ _

theorem mem_keys_cons (a : String × Json) (m : List (String × Json)) (k : String) :
    k ∈ keys (a :: m) ↔ k = a.1 ∨ k ∈ keys m := by
  simp [keys]

theorem keys_dictInsert (m : List (String × Json)) (k : String) (v : Json) :
    keys (dictInsert m k v) = if k ∈ keys m then keys m else keys m ++ [k] := by
  unfold dictInsert
  split
  · simp only [keys, List.map_map]
    apply List.map_congr_left
    intro p _
    by_cases hp : p.1 = k
    · simp [hp]
    · simp [hp]
  · simp [keys]

theorem lookup_map_update_ne (m : List (String × Json)) (k : String) (v : Json) (k' : String)
    (h : k' ≠ k) :
    List.lookup k' (m.map (fun p => if p.1 = k then (k, v) else p)) = List.lookup k' m := by
  induction m with
  | nil => rfl
  | cons a m ih =>
    obtain ⟨a1, a2⟩ := a
    by_cases ha : a1 = k
    · subst ha
      have hhead : (((a1, a2) : String × Json) :: m).map
          (fun p => if p.1 = a1 then (a1, v) else p) =
          (a1, v) :: m.map (fun p => if p.1 = a1 then (a1, v) else p) := by
        simp
      rw [hhead, List.lookup, List.lookup, beq_eq_false_iff_ne.mpr h, ih]
    · simp only [List.map_cons, if_neg ha]
      rw [List.lookup, List.lookup]
      cases hk : k' == a1
      · rw [ih]
      · rfl

theorem lookup_map_update_self (m : List (String × Json)) (k : String) (v : Json)
    (h : k ∈ keys m) :
    List.lookup k (m.map (fun p => if p.1 = k then (k, v) else p)) = some v := by
  induction m with
  | nil => simp [keys] at h
  | cons a m ih =>
    obtain ⟨a1, a2⟩ := a
    by_cases ha : a1 = k
    · subst ha
      simp only [List.map_cons, if_pos rfl]
      rw [List.lookup]
      simp
    · simp only [List.map_cons, if_neg ha]
      rw [List.lookup]
      have hbeq : (k == a1) = false := beq_eq_false_iff_ne.mpr (fun hc => ha hc.symm)
      rw [hbeq]
      apply ih
      rcases (mem_keys_cons (a1, a2) m k).mp h with hc | hc
      · exact absurd hc (fun hc => ha hc.symm)
      · exact hc

theorem lookup_append_pairs (m₁ m₂ : List (String × Json)) (k : String) :
    List.lookup k (m₁ ++ m₂) =
      (match List.lookup k m₁ with
       | some v => some v
       | none => List.lookup k m₂) := by
  induction m₁ with
  | nil => simp
  | cons a m₁ ih =>
    obtain ⟨a1, a2⟩ := a
    rw [List.cons_append, List.lookup, List.lookup]
    cases hk : k == a1
    · rw [ih]
    · rfl

theorem lookup_eq_none_of_not_mem (m : List (String × Json)) (k : String)
    (h : k ∉ keys m) : List.lookup k m = none := by
  induction m with
  | nil => rfl
  | cons a m ih =>
    obtain ⟨a1, a2⟩ := a
    have h1 : ¬ k = a1 := fun hc => h ((mem_keys_cons (a1, a2) m k).mpr (Or.inl hc))
    have h2 : k ∉ keys m := fun hc => h ((mem_keys_cons (a1, a2) m k).mpr (Or.inr hc))
    rw [List.lookup]
    rw [beq_eq_false_iff_ne.mpr h1]
    exact ih h2

theorem lookup_dictInsert (m : List (String × Json)) (k : String) (v : Json) (k' : String) :
    List.lookup k' (dictInsert m k v) = if k' = k then some v else List.lookup k' m := by
  unfold dictInsert
  split
  · by_cases hk : k' = k
    · subst hk
      rw [if_pos rfl, lookup_map_update_self m k' v (by assumption)]
    · rw [if_neg hk, lookup_map_update_ne m k v k' hk]
  · rw [lookup_append_pairs]
    by_cases hk : k' = k
    · subst hk
      rw [lookup_eq_none_of_not_mem m k' (by assumption)]
      rw [if_pos rfl, List.lookup]
      simp
    · rw [if_neg hk]
      cases h : List.lookup k' m
      · rw [List.lookup, beq_eq_false_iff_ne.mpr hk]
        rfl
      · rfl

theorem foldl_dictInsert_append_of_nodup :
    ∀ (M : List (String × Json)) (acc : List (String × Json)),
      (keys M).Nodup → (∀ k ∈ keys M, k ∉ keys acc) →
      M.foldl (fun a kv => dictInsert a kv.1 kv.2) acc = acc ++ M := by
  intro M
  induction M with
  | nil => intro acc _ _; simp
  | cons kv M ih =>
    intro acc hnd hdis
    obtain ⟨k, v⟩ := kv
    have hk : k ∉ keys acc := hdis k ((mem_keys_cons _ _ _).mpr (Or.inl rfl))
    have hstep : dictInsert acc k v = acc ++ [(k, v)] := by
      unfold dictInsert
      rw [if_neg hk]
    have hndt : (keys M).Nodup := by
      have : keys ((k, v) :: M) = k :: keys M := rfl
      rw [this] at hnd
      exact hnd.of_cons
    have hknotin : k ∉ keys M := by
      have : keys ((k, v) :: M) = k :: keys M := rfl
      rw [this] at hnd
      exact (List.nodup_cons.mp hnd).1
    rw [List.foldl_cons]
    simp only [hstep]
    rw [ih (acc ++ [(k, v)]) hndt ?_]
    · simp
    · intro k' hk'
      rw [keys_append]
      intro hc
      rcases List.mem_append.mp hc with hc | hc
      · exact hdis k' ((mem_keys_cons _ _ _).mpr (Or.inr hk')) hc
      · have : k' = k := by simpa [keys] using hc
        subst this
        exact hknotin hk'

theorem listToDict_of_nodup (m : List (String × Json)) (h : (keys m).Nodup) :
    listToDict m = m := by
  unfold listToDict
  rw [foldl_dictInsert_append_of_nodup m [] h (by simp [keys])]
  simp

/-! ## Claim C2: numeric convention of the value coercer -/

/-- C2: a numeric cell read from the Value column whose value has no
fractional part is coerced to an integer, a numeric cell with a nonzero
fractional part is coerced to a floating-point number (the numpy scalar is
unwrapped unchanged by `item()`), and a missing cell is coerced to null. -/
theorem value_coercer_numeric_convention (q : ℚ) (n : Int) :
    coerceCell (numCell q) = (if q.den = 1 then Json.int q.num else Json.float q) ∧
    coerceCell (Cell.int n) = Json.int n ∧
    coerceCell Cell.na = Json.null := by
  refine ⟨?_, rfl, rfl⟩
  unfold numCell
  split <;> rfl

/-! ## Claim C4: missing required columns abort the import -/

/-- C4: a table lacking a Key column or a Value column makes
`read_excel_to_json` fail with the missing-required-columns error and no
partial output, while a table carrying both columns never produces this
error. -/
theorem missing_columns_failure (t : Table Cell) :
    (("Key" ∈ t.cols ∧ "Value" ∈ t.cols) → ∃ m, read_excel_to_json t = Except.ok m) ∧
    (¬ ("Key" ∈ t.cols ∧ "Value" ∈ t.cols) →
      read_excel_to_json t = Except.error missingColsMsg) := by
  constructor
  · intro h
    exact ⟨_, by unfold read_excel_to_json; rw [if_pos h]⟩
  · intro h
    simp [read_excel_to_json, h]

theorem missing_columns_failure_witness :
    (∃ m, read_excel_to_json (Table.mk ["Key", "Value"] []) = Except.ok m) ∧
    read_excel_to_json (Table.mk ["Key"] []) = Except.error missingColsMsg :=
  ⟨(missing_columns_failure (Table.mk ["Key", "Value"] [])).1 (by decide),
   (missing_columns_failure (Table.mk ["Key"] [])).2 (by decide)⟩

/-! ## Claim C7: per-cell fault isolation -/

/-- C7: a cell on which some coercion step raises falls back to the
stringified raw value (null when the raw value is Python None) and the
exception never propagates: whenever the Key/Value precondition holds,
the import of the whole table completes with a result. -/
theorem per_cell_fault_isolation (t : Table Cell) (r : String) (b : Bool) :
    ("Key" ∈ t.cols → "Value" ∈ t.cols → ∃ m, read_excel_to_json t = Except.ok m) ∧
    coerceCell (Cell.raising r b) = (if b then Json.null else Json.str r) := by
  constructor
  · intro h1 h2
    exact ⟨_, by unfold read_excel_to_json; rw [if_pos ⟨h1, h2⟩]⟩
  · cases b <;> rfl

theorem per_cell_fault_isolation_witness :
    (∃ m, read_excel_to_json
      (Table.mk ["Key", "Value"] [[Cell.str "a", Cell.raising "boom" false]]) =
        Except.ok m) ∧
    coerceCell (Cell.raising "boom" false) = Json.str "boom" := by
  refine ⟨(per_cell_fault_isolation
    (Table.mk ["Key", "Value"] [[Cell.str "a", Cell.raising "boom" false]]) "boom" false).1
      (by decide) (by decide), ?_⟩
  have h := (per_cell_fault_isolation
    (Table.mk ["Key", "Value"] [[Cell.str "a", Cell.raising "boom" false]]) "boom" false).2
  simpa using h

/-! ## Claim C9: first malformed line aborts the ndjson load -/

theorem loadNdjsonFrom_error (parse : String → Option Json) (bad : String) (post : List String)
    (hbad : ¬ pyStrip bad = "") (hfail : parse (pyStrip bad) = none) :
    ∀ (pre : List String) (i : Nat),
      (∀ l ∈ pre, pyStrip l = "" ∨ ∃ v, parse (pyStrip l) = some v) →
      loadNdjsonFrom parse i (pre ++ bad :: post) =
        Except.error (i + pre.length, pyStrip bad) := by
  intro pre
  induction pre with
  | nil =>
    intro i _
    simp [loadNdjsonFrom, hbad, hfail]
  | cons l pre ih =>
    intro i hpre
    by_cases hb : pyStrip l = ""
    · rw [List.cons_append]
      rw [show loadNdjsonFrom parse i (l :: (pre ++ bad :: post)) =
        loadNdjsonFrom parse (i + 1) (pre ++ bad :: post) by simp [loadNdjsonFrom, hb]]
      rw [ih (i + 1) (fun x hx => hpre x (by simp [hx]))]
      have harith : i + 1 + pre.length = i + (l :: pre).length := by
        simp
        omega
      rw [harith]
    · obtain ⟨v, hv⟩ := (hpre l (by simp)).resolve_left hb
      rw [List.cons_append]
      rw [show loadNdjsonFrom parse i (l :: (pre ++ bad :: post)) =
        Except.map (fun vs => v :: vs) (loadNdjsonFrom parse (i + 1) (pre ++ bad :: post)) by
          simp [loadNdjsonFrom, hb, hv]]
      rw [ih (i + 1) (fun x hx => hpre x (by simp [hx]))]
      have harith : i + 1 + pre.length = i + (l :: pre).length := by
        simp
        omega
      simp [Except.map]
      omega

/-- C9: in the newline-delimited loader every line is handled
independently; the first line that strips to a non-empty string and fails
to parse aborts the entire load with its 1-based line number, regardless of
what follows. -/
theorem ndjson_first_error (parse : String → Option Json) (pre : List String) (bad : String)
    (post : List String)
    (hpre : ∀ l ∈ pre, pyStrip l = "" ∨ ∃ v, parse (pyStrip l) = some v)
    (hbad : ¬ pyStrip bad = "") (hfail : parse (pyStrip bad) = none) :
    load_json_ndjson parse (pre ++ bad :: post) =
      Except.error (pre.length + 1, pyStrip bad) := by
  unfold load_json_ndjson
  rw [loadNdjsonFrom_error parse bad post hbad hfail pre 1 hpre]
  have : 1 + pre.length = pre.length + 1 := Nat.add_comm _ _
  rw [this]

theorem ndjson_first_error_witness :
    load_json_ndjson (fun s => if s = "1" then some (Json.int 1) else none)
      (["1", ""] ++ "x" :: ["1"]) = Except.error (3, "x") := by
  have h := ndjson_first_error (fun s => if s = "1" then some (Json.int 1) else none)
    ["1", ""] "x" ["1"] ?_ ?_ ?_
  · exact h.trans (by rfl)
  · intro l hl
    rcases List.mem_pair.mp hl with rfl | rfl
    · exact Or.inr ⟨Json.int 1, by rfl⟩
    · exact Or.inl (by rfl)
  · decide
  · rfl

/-! ## Claim C5: row order and last-row-wins -/

theorem dedupFirstGo_congr (s₁ s₂ : List String) (h : ∀ x, x ∈ s₁ ↔ x ∈ s₂) :
    ∀ l, dedupFirstGo s₁ l = dedupFirstGo s₂ l := by
  intro l
  induction l generalizing s₁ s₂ with
  | nil => rfl
  | cons x xs ih =>
    by_cases hx : x ∈ s₁
    · simp [dedupFirstGo, hx, (h x).mp hx, ih _ _ h]
    · have hx2 : x ∉ s₂ := fun hc => hx ((h x).mpr hc)
      simp only [dedupFirstGo, if_neg hx, if_neg hx2]
      rw [ih (x :: s₁) (x :: s₂) (by intro y; simp [h y])]

theorem keys_foldl_dictInsert {β : Type} (f : β → String) (g : β → Json) :
    ∀ (l : List β) (acc : List (String × Json)),
      keys (l.foldl (fun a b => dictInsert a (f b) (g b)) acc) =
        keys acc ++ dedupFirstGo (keys acc) (l.map f) := by
  intro l
  induction l with
  | nil => intro acc; simp [dedupFirstGo]
  | cons b l ih =>
    intro acc
    rw [List.foldl_cons, ih]
    by_cases hb : f b ∈ keys acc
    · rw [keys_dictInsert, if_pos hb]
      simp [List.map_cons, dedupFirstGo, hb]
    · rw [keys_dictInsert, if_neg hb]
      simp only [List.map_cons, dedupFirstGo, if_neg hb]
      rw [dedupFirstGo_congr (keys acc ++ [f b]) (f b :: keys acc)
        (by intro y; simp; tauto) (l.map f)]
      simp

theorem lookup_foldl_dictInsert {β : Type} (f : β → String) (g : β → Json) :
    ∀ (l : List β) (acc : List (String × Json)) (k : String),
      List.lookup k (l.foldl (fun a b => dictInsert a (f b) (g b)) acc) =
        ((l.reverse.find? (fun b => f b == k)).map g).or (List.lookup k acc) := by
  intro l
  induction l with
  | nil => intro acc k; simp
  | cons b l ih =>
    intro acc k
    rw [List.foldl_cons, ih, List.reverse_cons, List.find?_append]
    cases hf : List.find? (fun b => f b == k) l.reverse with
    | some c => simp [Option.or]
    | none =>
      rw [lookup_dictInsert]
      by_cases hk : k = f b
      · have hbeq : (f b == k) = true := by simp [hk]
        simp [List.find?, hbeq, hk, Option.or]
      · have hbeq : (f b == k) = false := beq_eq_false_iff_ne.mpr (fun hc => hk hc.symm)
        simp [List.find?, hbeq, hk, Option.or]

/-- C5: with Key and Value columns present, the import succeeds with the
row fold; the reconstructed mapping binds the stringified keys in row
order (first-appearance order becomes insertion order), and each key maps
to the coerced Value of its last row occurrence. -/
theorem last_row_wins (t : Table Cell) (ki vi : Nat)
    (hki : t.cols.findIdx (fun c => c == "Key") = ki)
    (hvi : t.cols.findIdx (fun c => c == "Value") = vi)
    (hk : "Key" ∈ t.cols) (hv : "Value" ∈ t.cols) :
    read_excel_to_json t = Except.ok (reconstructRows ki vi t.rows) ∧
    keys (reconstructRows ki vi t.rows) =
      dedupFirst (t.rows.map (fun r => pyStr (cellAt r ki))) ∧
    ∀ k, List.lookup k (reconstructRows ki vi t.rows) =
      (t.rows.reverse.find? (fun r => pyStr (cellAt r ki) == k)).map
        (fun r => coerceCell (cellAt r vi)) := by
  refine ⟨?_, ?_, ?_⟩
  · unfold read_excel_to_json
    rw [if_pos ⟨hk, hv⟩, hki, hvi]
  · unfold reconstructRows dedupFirst
    rw [keys_foldl_dictInsert (fun r => pyStr (cellAt r ki))
      (fun r => coerceCell (cellAt r vi)) t.rows []]
    simp [keys]
  · intro k
    unfold reconstructRows
    rw [lookup_foldl_dictInsert (fun r => pyStr (cellAt r ki))
      (fun r => coerceCell (cellAt r vi)) t.rows [] k]
    simp

theorem last_row_wins_witness :
    read_excel_to_json (Table.mk ["Key", "Value"]
      [[Cell.str "a", Cell.int 1], [Cell.str "a", Cell.int 2]]) =
      Except.ok [("a", Json.int 2)] := by
  have h := last_row_wins (Table.mk ["Key", "Value"]
    [[Cell.str "a", Cell.int 1], [Cell.str "a", Cell.int 2]]) 0 1 rfl rfl
    (by decide) (by decide)
  exact h.1.trans (by rfl)

/-! ## Claim C6: flatten idempotence on flat mappings -/

theorem flattenItems_flat : ∀ (m : List (String × Json)) (sep : String),
    (∀ kv ∈ m, kv.2.isObj = false) → flattenItems sep "" m = m := by
  intro m
  induction m with
  | nil => intro sep _; exact flattenItems_nil sep ""
  | cons kv m ih =>
    intro sep h
    obtain ⟨k, v⟩ := kv
    rw [flattenItems_cons_leaf sep "" k v m (h (k, v) (by simp))]
    rw [ih sep (fun kv hkv => h kv (by simp [hkv]))]
    simp

/-- C6: flattening a mapping none of whose values is itself a mapping
returns it unchanged, key for key and value for value, in the same order;
and an empty nested mapping value contributes no keys to the flattened
result. -/
theorem flatten_idempotence (sep : String) (m m₁ m₂ : List (String × Json)) (k : String)
    (hnd : (keys m).Nodup) (hflat : ∀ kv ∈ m, kv.2.isObj = false) :
    flatten_dict m "" sep = m ∧
    flatten_dict (m₁ ++ (k, Json.obj []) :: m₂) "" sep = flatten_dict (m₁ ++ m₂) "" sep := by
  constructor
  · unfold flatten_dict
    rw [flattenItems_flat m sep hflat, listToDict_of_nodup m hnd]
  · unfold flatten_dict
    congr 1
    rw [flattenItems_append, flattenItems_cons, flattenItems_append]
    simp [flattenItems_nil, listToDict]

theorem flatten_idempotence_witness :
    flatten_dict [("a", Json.int 1), ("b", Json.str "x")] "" "." =
      [("a", Json.int 1), ("b", Json.str "x")] ∧
    flatten_dict ([("p", Json.int 1)] ++ ("q", Json.obj []) :: [("r", Json.int 2)]) "" "." =
      flatten_dict ([("p", Json.int 1)] ++ [("r", Json.int 2)]) "" "." :=
  flatten_idempotence "." [("a", Json.int 1), ("b", Json.str "x")]
    [("p", Json.int 1)] [("r", Json.int 2)] "q" (by decide) (by decide)

/-! ## Claim C1: vertical round trip -/

theorem scalar_not_obj {v : Json} (h : scalarOrNull v = true) : v.isObj = false := by
  cases v <;> simp [Json.isObj] <;> simp [scalarOrNull] at h

theorem coerce_cellOfJson {v : Json} (h : scalarOrNull v = true) :
    coerceCell (cellOfJson v) = v := by
  cases v <;> first
    | rfl
    | simp [scalarOrNull] at h

theorem build_frames_vertical_obj (M : List (String × Json)) (root sep : String) :
    build_frames (Json.obj M) root sep true =
      [(make_sheet_name root, verticalTable (flatten_dict M "" sep))] := by
  simp [build_frames, uniq_sheet_name]

theorem verticalTable_cons (kv : String × Json) (l : List (String × Json)) :
    verticalTable (kv :: l) =
      Table.mk ["Key", "Value"] ((kv :: l).map (fun kv => [Json.str kv.1, kv.2])) := rfl

theorem keys_map_snd (M : List (String × Json)) (h : String × Json → Json) :
    keys (M.map (fun kv => (kv.1, h kv))) = keys M := by
  simp [keys, List.map_map]

/-- C1 (amended to nonempty mappings): for every nonempty flat mapping with
string keys and scalar-or-null values, importing the table exported by
`build_frames` in vertical mode reconstructs exactly the same mapping, with
the same keys, values and order. -/
theorem vertical_roundtrip (M : List (String × Json)) (root sep : String)
    (hne : M ≠ []) (hnd : (keys M).Nodup) (hsc : ∀ kv ∈ M, scalarOrNull kv.2 = true) :
    read_excel_to_json (toITable (firstSheet (build_frames (Json.obj M) root sep true))) =
      Except.ok M := by
  have hflat : flatten_dict M "" sep = M := by
    unfold flatten_dict
    rw [flattenItems_flat M sep (fun kv hkv => scalar_not_obj (hsc kv hkv)),
      listToDict_of_nodup M hnd]
  rw [build_frames_vertical_obj, hflat]
  obtain ⟨hd, tl, rfl⟩ : ∃ hd tl, M = hd :: tl := by
    cases M with
    | nil => exact absurd rfl hne
    | cons hd tl => exact ⟨hd, tl, rfl⟩
  rw [show firstSheet [(make_sheet_name root, verticalTable (hd :: tl))] =
    verticalTable (hd :: tl) from rfl]
  rw [verticalTable_cons]
  simp only [toITable, read_excel_to_json]
  rw [if_pos (⟨by decide, by decide⟩ : ("Key" : String) ∈ (["Key", "Value"] : List String) ∧
    ("Value" : String) ∈ (["Key", "Value"] : List String))]
  have hki : (["Key", "Value"] : List String).findIdx (fun c => c == "Key") = 0 := rfl
  have hvi : (["Key", "Value"] : List String).findIdx (fun c => c == "Value") = 1 := rfl
  rw [hki, hvi]
  unfold reconstructRows
  rw [List.map_map, List.foldl_map]
  have hfun : (fun (acc : List (String × Json)) (kv : String × Json) =>
      dictInsert acc (pyStr (cellAt ((List.map cellOfJson ∘ fun kv =>
        [Json.str kv.1, kv.2]) kv) 0))
        (coerceCell (cellAt ((List.map cellOfJson ∘ fun kv => [Json.str kv.1, kv.2]) kv) 1))) =
      (fun acc kv => dictInsert acc kv.1 (coerceCell (cellOfJson kv.2))) := by
    funext acc kv
    rfl
  rw [hfun]
  have hmapped : (hd :: tl).foldl
      (fun acc kv => dictInsert acc kv.1 (coerceCell (cellOfJson kv.2))) [] =
      ((hd :: tl).map (fun kv => (kv.1, coerceCell (cellOfJson kv.2)))).foldl
        (fun a kv => dictInsert a kv.1 kv.2) [] := by
    rw [List.foldl_map]
  rw [hmapped, foldl_dictInsert_append_of_nodup _ []
    (by rw [keys_map_snd]; exact hnd) (by simp [keys])]
  rw [List.nil_append]
  have hid : (hd :: tl).map (fun kv => (kv.1, coerceCell (cellOfJson kv.2))) = hd :: tl := by
    have hcg : (hd :: tl).map (fun kv => (kv.1, coerceCell (cellOfJson kv.2))) =
        (hd :: tl).map (fun kv => kv) :=
      List.map_congr_left (fun kv hkv => by
        show (kv.1, coerceCell (cellOfJson kv.2)) = kv
        rw [coerce_cellOfJson (hsc kv hkv)])
    rw [hcg, List.map_id']
  rw [hid]

theorem vertical_roundtrip_witness :
    read_excel_to_json (toITable (firstSheet (build_frames
      (Json.obj [("a", Json.int 1), ("b", Json.null)]) "data" "." true))) =
      Except.ok [("a", Json.int 1), ("b", Json.null)] :=
  vertical_roundtrip [("a", Json.int 1), ("b", Json.null)] "data" "."
    (by simp) (by decide) (by decide)

/-- C1 counterexample: for the empty flat mapping the claim fails, because
the vertical export of the empty mapping has no Key or Value column, so
reimporting it errors instead of returning the empty mapping. -/
theorem vertical_roundtrip_counterexample :
    read_excel_to_json (toITable (firstSheet (build_frames (Json.obj []) "data" "." true))) =
      Except.error missingColsMsg := by
  simp [build_frames, uniq_sheet_name, flatten_dict, flattenItems_nil, listToDict,
    verticalTable, firstSheet, toITable, emptyTable, read_excel_to_json]

/-! ## Claim C8: horizontal layout classification -/

theorem horizLoop_scalar_step (sep k : String) (v : Json) (rest : List (String × Json))
    (frames : List (String × Table Json)) (used : List String)
    (scalars : List (String × Json)) (hv : isScalarEntry v = true) :
    horizLoop sep ((k, v) :: rest) frames used scalars =
      horizLoop sep rest frames used (dictInsert scalars k v) := by
  cases v <;> first
    | rfl
    | simp [isScalarEntry] at hv

theorem horizontalEntryTables_scalar_step (sep k : String) (v : Json)
    (rest : List (String × Json)) (used : List String) (hv : isScalarEntry v = true) :
    horizontalEntryTables sep ((k, v) :: rest) used = horizontalEntryTables sep rest used := by
  cases v <;> first
    | rfl
    | simp [isScalarEntry] at hv

theorem filter_scalar_cons_pos (k : String) (v : Json) (rest : List (String × Json))
    (hv : isScalarEntry v = true) :
    ((k, v) :: rest).filter (fun kv => isScalarEntry kv.2) =
      (k, v) :: rest.filter (fun kv => isScalarEntry kv.2) := by
  cases v <;> first
    | rfl
    | simp [isScalarEntry] at hv

theorem filter_scalar_cons_neg (k : String) (v : Json) (rest : List (String × Json))
    (hv : isScalarEntry v = false) :
    ((k, v) :: rest).filter (fun kv => isScalarEntry kv.2) =
      rest.filter (fun kv => isScalarEntry kv.2) := by
  cases v <;> first
    | rfl
    | simp [isScalarEntry] at hv

theorem isEmpty_false_of_ne_nil {α : Type} {l : List α} (h : l ≠ []) : l.isEmpty = false := by
  cases l with
  | nil => exact absurd rfl h
  | cons a t => rfl

theorem isEmpty_append_singleton {α : Type} (l : List α) (x : α) :
    (l ++ [x]).isEmpty = false := by
  cases l <;> rfl

theorem horizLoop_spec (sep : String) :
    ∀ (kvs : List (String × Json)) (frames : List (String × Table Json)) (used : List String)
      (scalars : List (String × Json)),
      (kvs.map Prod.fst).Nodup →
      (∀ k ∈ keys scalars, k ∉ kvs.map Prod.fst) →
      horizLoop sep kvs frames used scalars =
        (frames ++ (horizontalEntryTables sep kvs used).1,
         (horizontalEntryTables sep kvs used).2,
         scalars ++ kvs.filter (fun kv => isScalarEntry kv.2)) := by
  intro kvs
  induction kvs with
  | nil =>
    intro frames used scalars _ _
    simp [horizLoop, horizontalEntryTables]
  | cons kv rest ih =>
    intro frames used scalars hnd hdis
    obtain ⟨k, v⟩ := kv
    have hnd' : (k :: rest.map Prod.fst).Nodup := hnd
    have hndt : (rest.map Prod.fst).Nodup := (List.nodup_cons.mp hnd').2
    have hknotin : k ∉ rest.map Prod.fst := (List.nodup_cons.mp hnd').1
    by_cases hv : isScalarEntry v = true
    · have hk : k ∉ keys scalars := fun hc => hdis k hc (by simp)
      have hins : dictInsert scalars k v = scalars ++ [(k, v)] := by
        unfold dictInsert
        rw [if_neg hk]
      rw [horizLoop_scalar_step sep k v rest frames used scalars hv,
        horizontalEntryTables_scalar_step sep k v rest used hv,
        filter_scalar_cons_pos k v rest hv, hins,
        ih frames used (scalars ++ [(k, v)]) hndt ?_]
      · simp
      · intro k' hk'
        rw [keys_append] at hk'
        rcases List.mem_append.mp hk' with hc | hc
        · exact fun hm => hdis k' hc (by simp [hm])
        · have : k' = k := by simpa [keys] using hc
          subst this
          exact hknotin
    · have hdis' : ∀ k' ∈ keys scalars, k' ∉ rest.map Prod.fst :=
        fun k' hk' hc => hdis k' hk' (by simp [hc])
      have hvf : isScalarEntry v = false := by
        cases hb : isScalarEntry v
        · rfl
        · exact absurd hb hv
      cases v with
      | null => simp [isScalarEntry] at hvf
      | bool b => simp [isScalarEntry] at hvf
      | int n => simp [isScalarEntry] at hvf
      | float q => simp [isScalarEntry] at hvf
      | str s => simp [isScalarEntry] at hvf
      | arr l =>
        simp only [horizLoop, horizontalEntryTables]
        rw [ih (frames ++ [((uniq_sheet_name k used).1, normalize_list sep l)])
          (uniq_sheet_name k used).2 scalars hndt hdis']
        rw [filter_scalar_cons_neg k (Json.arr l) rest hvf]
        simp
      | obj o =>
        simp only [horizLoop, horizontalEntryTables]
        rw [ih (frames ++ [((uniq_sheet_name k used).1, jsonNormalizeDict sep o)])
          (uniq_sheet_name k used).2 scalars hndt hdis']
        rw [filter_scalar_cons_neg k (Json.obj o) rest hvf]
        simp

theorem horizontalEntryTables_ne_nil (sep : String) :
    ∀ (kvs : List (String × Json)) (used : List String), kvs ≠ [] →
      kvs.filter (fun kv => isScalarEntry kv.2) = [] →
      (horizontalEntryTables sep kvs used).1 ≠ [] := by
  intro kvs used hne hfil
  cases kvs with
  | nil => exact absurd rfl hne
  | cons kv rest =>
    obtain ⟨k, v⟩ := kv
    by_cases hv : isScalarEntry v = true
    · rw [filter_scalar_cons_pos k v rest hv] at hfil
      exact absurd hfil (by simp)
    · cases v with
      | null => exact absurd rfl hv
      | bool b => exact absurd rfl hv
      | int n => exact absurd rfl hv
      | float q => exact absurd rfl hv
      | str s => exact absurd rfl hv
      | arr l => simp [horizontalEntryTables]
      | obj o => simp [horizontalEntryTables]

/-- C8: on a mapping root in horizontal mode `build_frames` produces
exactly what the spec describes: in iteration order a dedicated table per
sequence-valued entry and a one-row flattened table per mapping-valued
entry (each named after its key through the sheet planner), then one
combined table of the scalar entries named by the root name exactly when a
scalar exists, and for the empty mapping a single empty table named by the
root name. -/
theorem horizontal_classification (kvs : List (String × Json)) (root sep : String)
    (hnd : (kvs.map Prod.fst).Nodup) :
    build_frames (Json.obj kvs) root sep false = horizontalSpec kvs root sep := by
  simp only [build_frames, Bool.false_eq_true, if_false]
  rw [horizLoop_spec sep kvs [] [] [] hnd (by simp [keys])]
  simp only [List.nil_append]
  unfold horizontalSpec
  by_cases hemp : kvs = []
  · subst hemp
    simp [horizontalEntryTables, uniq_sheet_name]
  · have hkvsE : kvs.isEmpty = false := isEmpty_false_of_ne_nil hemp
    simp only [hkvsE, Bool.false_eq_true, if_false]
    by_cases hfil : kvs.filter (fun kv => isScalarEntry kv.2) = []
    · have hne := horizontalEntryTables_ne_nil sep kvs [] hemp hfil
      have hE : (horizontalEntryTables sep kvs []).1.isEmpty = false :=
        isEmpty_false_of_ne_nil hne
      simp only [hfil, List.isEmpty_nil, if_true, hE, Bool.false_eq_true, if_false]
    · have hfE : (kvs.filter (fun kv => isScalarEntry kv.2)).isEmpty = false :=
        isEmpty_false_of_ne_nil hfil
      simp only [hfE, Bool.false_eq_true, if_false, isEmpty_append_singleton]

theorem horizontal_classification_witness :
    ((([("items", Json.arr [Json.int 1, Json.int 2, Json.int 3]),
      ("name", Json.str "alice")] : List (String × Json)).map Prod.fst).Nodup) ∧
    build_frames (Json.obj [("items", Json.arr [Json.int 1, Json.int 2, Json.int 3]),
      ("name", Json.str "alice")]) "data" "." false =
      horizontalSpec [("items", Json.arr [Json.int 1, Json.int 2, Json.int 3]),
        ("name", Json.str "alice")] "data" "." ∧
    build_frames (Json.obj [("items", Json.arr [Json.int 1, Json.int 2, Json.int 3]),
      ("name", Json.str "alice")]) "data" "." false =
      [("items", Table.mk ["value"] [[Json.int 1], [Json.int 2], [Json.int 3]]),
       ("data", Table.mk ["name"] [[Json.str "alice"]])] := by
  refine ⟨by decide, horizontal_classification _ "data" "." (by decide), ?_⟩
  simp [build_frames, horizLoop, uniq_sheet_name, normalize_list, is_list_of_dicts,
    Json.isObj, jsonNormalizeDict, flatten_dict, flattenItems, listToDict, dictInsert,
    keys, make_sheet_name, cleanChar, forbiddenChars]

/-! ## Claim C3: sheet name constraints

The collision loop of `uniq_sheet_name` always returns the first free
candidate (the fuel is shown sufficient by a pigeonhole argument), and as
long as the collision counter stays below `10 ^ 30` the suffix fits the
31-character cap.  The lemmas below establish validity of every name
produced during one export whose mapping root has at most `10 ^ 29`
top-level entries, plus unconditional pairwise distinctness. -/

theorem cleanChar_not_forbidden (c : Char) : cleanChar c ∉ forbiddenChars := by
  unfold cleanChar
  split
  · decide
  · assumption

theorem digit_not_forbidden {c : Char} (h1 : 48 ≤ c.toNat) (h2 : c.toNat ≤ 57) :
    c ∉ forbiddenChars := by
  intro hc
  simp [forbiddenChars] at hc
  rcases hc with rfl | rfl | rfl | rfl | rfl | rfl | rfl <;> revert h1 h2 <;> decide

theorem sheet_data_not_forbidden : ∀ c ∈ ("Sheet".data), c ∉ forbiddenChars := by
  decide

theorem make_sheet_name_noForbidden (s : String) :
    ∀ c ∈ (make_sheet_name s).data, c ∉ forbiddenChars := by
  intro c hc
  unfold make_sheet_name at hc
  have hc' := List.take_subset 31 _ hc
  split at hc'
  · exact sheet_data_not_forbidden c hc'
  · obtain ⟨c0, _, rfl⟩ := List.mem_map.mp hc'
    exact cleanChar_not_forbidden c0

theorem make_sheet_name_base_ne_nil (s : String) :
    (if (s.data.map cleanChar) = [] then "Sheet".data else s.data.map cleanChar) ≠ [] := by
  split
  · decide
  · assumption

theorem make_sheet_name_valid (s : String) : validSheetName (make_sheet_name s) := by
  refine ⟨?_, ?_, make_sheet_name_noForbidden s⟩
  · unfold make_sheet_name
    intro hc
    rw [List.take_eq_nil_iff] at hc
    have hbase := make_sheet_name_base_ne_nil s
    rcases hc with hc | hc
    all_goals first
      | exact hbase hc
      | omega
  · unfold make_sheet_name
    rw [List.length_take]
    exact min_le_left _ _

theorem sliceTake_nonneg (l : List Char) (k : Int) (hk : 0 ≤ k) :
    sliceTake l k = l.take k.toNat := by
  unfold sliceTake
  rw [if_neg (by omega)]

theorem candName_valid (name : String) (i : Nat)
    (hclean : ∀ c ∈ name.data, c ∉ forbiddenChars)
    (hdig : (natDigitsCore i i).length ≤ 30) : validSheetName (candName name i) := by
  have hsuf : (suffixChars i).length = (natDigitsCore i i).length + 1 := by
    simp [suffixChars]
  have hL : (suffixChars i).length ≤ 31 := by omega
  have hnn : (0 : Int) ≤ 31 - ((suffixChars i).length : Int) := by omega
  refine ⟨?_, ?_, ?_⟩
  · unfold candName
    intro hc
    rw [List.append_eq_nil] at hc
    exact absurd hc.2 (by simp [suffixChars])
  · unfold candName
    rw [sliceTake_nonneg _ _ hnn]
    rw [List.length_append, List.length_take]
    have h1 : ((31 : Int) - ((suffixChars i).length : Int)).toNat =
        31 - (suffixChars i).length := by omega
    rw [h1]
    have := min_le_left (31 - (suffixChars i).length) name.data.length
    omega
  · unfold candName
    intro c hc
    rw [sliceTake_nonneg _ _ hnn] at hc
    rcases List.mem_append.mp hc with hc | hc
    · exact hclean c (List.take_subset _ _ hc)
    · rcases hc with _ | ⟨_, hc⟩
      · decide
      · have hb := natDigitsCore_digit_bounds i i c (by assumption)
        exact digit_not_forbidden hb.1 hb.2

theorem natDigitsCore_length_class {d n : Nat} (h1 : 10 ^ d ≤ n) (h2 : n < 10 ^ (d + 1)) :
    (natDigitsCore n n).length = d + 1 := by
  have hle := (natDigitsCore_length_le_iff n n d le_rfl).mpr h2
  cases d with
  | zero =>
    have hne := natDigitsCore_ne_nil n n
    have hpos := List.length_pos.mpr hne
    omega
  | succ e =>
    have hgt : ¬ ((natDigitsCore n n).length ≤ e + 1) := by
      intro hc
      have := (natDigitsCore_length_le_iff n n e le_rfl).mp hc
      omega
    omega

theorem candName_inj_class (name : String) {d i j : Nat}
    (hi1 : 10 ^ d ≤ i) (hi2 : i < 10 ^ (d + 1)) (hj1 : 10 ^ d ≤ j) (hj2 : j < 10 ^ (d + 1))
    (h : candName name i = candName name j) : i = j := by
  have hli : (natDigitsCore i i).length = d + 1 := natDigitsCore_length_class hi1 hi2
  have hlj : (natDigitsCore j j).length = d + 1 := natDigitsCore_length_class hj1 hj2
  unfold candName at h
  have hld : sliceTake name.data ((31 : Int) - ((suffixChars i).length : Int)) ++ suffixChars i =
      sliceTake name.data ((31 : Int) - ((suffixChars j).length : Int)) ++ suffixChars j :=
    congrArg String.data h
  have hsl : ((suffixChars i).length : Int) = ((suffixChars j).length : Int) := by
    simp [suffixChars, hli, hlj]
  rw [hsl] at hld
  have hsuf : suffixChars i = suffixChars j := List.append_cancel_left hld
  unfold suffixChars at hsuf
  exact natDigitsCore_injective (List.cons_injective.eq_iff.mp hsuf)

theorem exists_fresh_candidate (name : String) (used : List String) (d : Nat)
    (hcard : used.length < 9 * 10 ^ d) :
    ∃ m, 10 ^ d ≤ m ∧ m < 10 ^ (d + 1) ∧ candName name m ∉ used := by
  by_contra hco
  push_neg at hco
  have hmaps : ∀ m ∈ Finset.Ico (10 ^ d) (10 ^ (d + 1)),
      candName name m ∈ used.toFinset := by
    intro m hm
    rw [List.mem_toFinset]
    rw [Finset.mem_Ico] at hm
    exact hco m hm.1 hm.2
  have hinj : Set.InjOn (fun m => candName name m)
      (Finset.Ico (10 ^ d) (10 ^ (d + 1))) := by
    intro i hi j hj hij
    simp only [Finset.coe_Ico, Set.mem_Ico] at hi hj
    exact candName_inj_class name hi.1 hi.2 hj.1 hj.2 hij
  have hle := Finset.card_le_card_of_injOn (fun m => candName name m) hmaps hinj
  rw [Nat.card_Ico] at hle
  have hcc : used.toFinset.card ≤ used.length := used.toFinset_card_le
  have hpow : 10 ^ (d + 1) = 10 * 10 ^ d := by ring
  omega

theorem uniqLoop_spec (name : String) (used : List String) :
    ∀ (fuel i m : Nat), i ≤ m → m < i + fuel → candName name m ∉ used →
      ∃ j, i ≤ j ∧ j ≤ m ∧ candName name j ∉ used ∧
        uniqLoop name used i fuel = candName name j := by
  intro fuel
  induction fuel with
  | zero =>
    intro i m h1 h2 _
    omega
  | succ fuel ih =>
    intro i m h1 h2 h3
    by_cases hc : candName name i ∈ used
    · have him : i ≠ m := fun he => h3 (he ▸ hc)
      obtain ⟨j, hj1, hj2, hj3, hj4⟩ := ih (i + 1) m (by omega) (by omega) h3
      refine ⟨j, by omega, hj2, hj3, ?_⟩
      simp only [uniqLoop, if_pos hc]
      exact hj4
    · exact ⟨i, le_rfl, h1, hc, by simp only [uniqLoop, if_neg hc]⟩

theorem uniq_sheet_name_spec (base : String) (used : List String)
    (hcard : used.length < 9 * 10 ^ 29) :
    validSheetName (uniq_sheet_name base used).1 ∧
    (uniq_sheet_name base used).1 ∉ used ∧
    (uniq_sheet_name base used).2 = (uniq_sheet_name base used).1 :: used := by
  by_cases hmem : make_sheet_name base ∈ used
  · have hrw : uniq_sheet_name base used =
        (uniqLoop (make_sheet_name base) used 2 (10 ^ (used.length + 1)),
         uniqLoop (make_sheet_name base) used 2 (10 ^ (used.length + 1)) :: used) := by
      unfold uniq_sheet_name
      rw [if_pos hmem]
    rw [hrw]
    have hlen1 : 1 ≤ used.length := by
      cases used with
      | nil => simp at hmem
      | cons a l => simp
    have hd1 : 1 ≤ min used.length 29 := Nat.le_min.mpr ⟨hlen1, by norm_num⟩
    have hd29 : min used.length 29 ≤ 29 := min_le_right _ _
    have hdcard : used.length < 9 * 10 ^ (min used.length 29) := by
      rcases le_or_lt used.length 29 with hle | hlt
      · rw [min_eq_left hle]
        calc used.length < 10 ^ used.length := Nat.lt_pow_self (by norm_num) _
        _ ≤ 9 * 10 ^ used.length := Nat.le_mul_of_pos_left _ (by norm_num)
      · rw [min_eq_right (by omega)]
        exact hcard
    obtain ⟨m, hm1, hm2, hm3⟩ :=
      exists_fresh_candidate (make_sheet_name base) used (min used.length 29) hdcard
    have h2m : 2 ≤ m := by
      have h10 : 10 ≤ 10 ^ min used.length 29 := by
        calc (10 : Nat) = 10 ^ 1 := by norm_num
        _ ≤ 10 ^ min used.length 29 := Nat.pow_le_pow_right (by norm_num) hd1
      omega
    have hmfuel : m < 2 + 10 ^ (used.length + 1) := by
      have hdle : min used.length 29 + 1 ≤ used.length + 1 := by
        have := min_le_left used.length 29
        omega
      have := Nat.pow_le_pow_right (show 1 ≤ 10 by norm_num) hdle
      omega
    obtain ⟨jj, hj1, hj2, hj3, hj4⟩ := uniqLoop_spec (make_sheet_name base) used
      (10 ^ (used.length + 1)) 2 m h2m (by omega) hm3
    rw [hj4]
    refine ⟨?_, hj3, rfl⟩
    apply candName_valid _ _ (make_sheet_name_noForbidden base)
    have hj30 : jj < 10 ^ 30 := by
      have hstep : 10 ^ (min used.length 29 + 1) ≤ 10 ^ 30 :=
        Nat.pow_le_pow_right (by norm_num) (by omega)
      omega
    have := (natDigitsCore_length_le_iff jj jj 29 le_rfl).mpr (by simpa using hj30)
    simpa using this
  · have hrw : uniq_sheet_name base used =
        (make_sheet_name base, make_sheet_name base :: used) := by
      unfold uniq_sheet_name
      rw [if_neg hmem]
    rw [hrw]
    exact ⟨make_sheet_name_valid base, hmem, rfl⟩

theorem nodup_append_singleton {α : Type} {l : List α} {x : α}
    (h : l.Nodup) (hx : x ∉ l) : (l ++ [x]).Nodup := by
  rw [List.nodup_append]
  refine ⟨h, List.nodup_singleton x, ?_⟩
  intro a ha hb
  have hax : a = x := by simpa using hb
  subst hax
  exact hx ha

theorem horizLoop_names_inv (sep : String) :
    ∀ (kvs : List (String × Json)) (frames : List (String × Table Json))
      (used : List String) (scalars : List (String × Json)),
      used.length + kvs.length < 9 * 10 ^ 29 →
      (∀ n ∈ frames.map Prod.fst, n ∈ used) →
      (frames.map Prod.fst).Nodup →
      (∀ n ∈ frames.map Prod.fst, validSheetName n) →
      (∀ n ∈ (horizLoop sep kvs frames used scalars).1.map Prod.fst,
        n ∈ (horizLoop sep kvs frames used scalars).2.1) ∧
      ((horizLoop sep kvs frames used scalars).1.map Prod.fst).Nodup ∧
      (∀ n ∈ (horizLoop sep kvs frames used scalars).1.map Prod.fst, validSheetName n) ∧
      (horizLoop sep kvs frames used scalars).2.1.length ≤ used.length + kvs.length := by
  intro kvs
  induction kvs with
  | nil =>
    intro frames used scalars _ hsub hnd hval
    exact ⟨hsub, hnd, hval, le_rfl⟩
  | cons kv rest ih =>
    intro frames used scalars hbudget hsub hnd hval
    obtain ⟨k, v⟩ := kv
    have hcard : used.length < 9 * 10 ^ 29 := by
      simp only [List.length_cons] at hbudget
      omega
    have hspec := uniq_sheet_name_spec k used hcard
    have hstep : ∀ (T : Table Json),
        (∀ n ∈ (frames ++ [((uniq_sheet_name k used).1, T)]).map Prod.fst,
          n ∈ (uniq_sheet_name k used).2) ∧
        ((frames ++ [((uniq_sheet_name k used).1, T)]).map Prod.fst).Nodup ∧
        (∀ n ∈ (frames ++ [((uniq_sheet_name k used).1, T)]).map Prod.fst,
          validSheetName n) := by
      intro T
      refine ⟨?_, ?_, ?_⟩
      · intro n hn
        rw [List.map_append] at hn
        rw [hspec.2.2]
        rcases List.mem_append.mp hn with hc | hc
        · exact List.mem_cons_of_mem _ (hsub n hc)
        · simp at hc
          subst hc
          exact List.mem_cons_self _ _
      · rw [List.map_append]
        exact nodup_append_singleton hnd
          (fun hc => hspec.2.1 (hsub _ hc))
      · intro n hn
        rw [List.map_append] at hn
        rcases List.mem_append.mp hn with hc | hc
        · exact hval n hc
        · simp at hc
          subst hc
          exact hspec.1
    cases v with
    | arr l =>
      simp only [horizLoop]
      have hrec := ih (frames ++ [((uniq_sheet_name k used).1, normalize_list sep l)])
        (uniq_sheet_name k used).2 scalars ?_ (hstep (normalize_list sep l)).1
        (hstep (normalize_list sep l)).2.1 (hstep (normalize_list sep l)).2.2
      · refine ⟨hrec.1, hrec.2.1, hrec.2.2.1, ?_⟩
        have hul : (uniq_sheet_name k used).2.length = used.length + 1 := by
          rw [hspec.2.2]
          simp
        have := hrec.2.2.2
        rw [hul] at this
        simp only [List.length_cons]
        omega
      · have hul : (uniq_sheet_name k used).2.length = used.length + 1 := by
          rw [hspec.2.2]
          simp
        rw [hul]
        simp only [List.length_cons] at hbudget ⊢
        omega
    | obj o =>
      simp only [horizLoop]
      have hrec := ih (frames ++ [((uniq_sheet_name k used).1, jsonNormalizeDict sep o)])
        (uniq_sheet_name k used).2 scalars ?_ (hstep (jsonNormalizeDict sep o)).1
        (hstep (jsonNormalizeDict sep o)).2.1 (hstep (jsonNormalizeDict sep o)).2.2
      · refine ⟨hrec.1, hrec.2.1, hrec.2.2.1, ?_⟩
        have hul : (uniq_sheet_name k used).2.length = used.length + 1 := by
          rw [hspec.2.2]
          simp
        have := hrec.2.2.2
        rw [hul] at this
        simp only [List.length_cons]
        omega
      · have hul : (uniq_sheet_name k used).2.length = used.length + 1 := by
          rw [hspec.2.2]
          simp
        rw [hul]
        simp only [List.length_cons] at hbudget ⊢
        omega
    | null =>
      simp only [horizLoop]
      have hrec := ih frames used (dictInsert scalars k Json.null)
        (by simp only [List.length_cons] at hbudget; omega) hsub hnd hval
      exact ⟨hrec.1, hrec.2.1, hrec.2.2.1, by have := hrec.2.2.2; simp only [List.length_cons]; omega⟩
    | bool b =>
      simp only [horizLoop]
      have hrec := ih frames used (dictInsert scalars k (Json.bool b))
        (by simp only [List.length_cons] at hbudget; omega) hsub hnd hval
      exact ⟨hrec.1, hrec.2.1, hrec.2.2.1, by have := hrec.2.2.2; simp only [List.length_cons]; omega⟩
    | int n =>
      simp only [horizLoop]
      have hrec := ih frames used (dictInsert scalars k (Json.int n))
        (by simp only [List.length_cons] at hbudget; omega) hsub hnd hval
      exact ⟨hrec.1, hrec.2.1, hrec.2.2.1, by have := hrec.2.2.2; simp only [List.length_cons]; omega⟩
    | float q =>
      simp only [horizLoop]
      have hrec := ih frames used (dictInsert scalars k (Json.float q))
        (by simp only [List.length_cons] at hbudget; omega) hsub hnd hval
      exact ⟨hrec.1, hrec.2.1, hrec.2.2.1, by have := hrec.2.2.2; simp only [List.length_cons]; omega⟩
    | str s =>
      simp only [horizLoop]
      have hrec := ih frames used (dictInsert scalars k (Json.str s))
        (by simp only [List.length_cons] at hbudget; omega) hsub hnd hval
      exact ⟨hrec.1, hrec.2.1, hrec.2.2.1, by have := hrec.2.2.2; simp only [List.length_cons]; omega⟩

theorem uniq_empty_eq (base : String) :
    uniq_sheet_name base [] = (make_sheet_name base, [make_sheet_name base]) := by
  unfold uniq_sheet_name
  rw [if_neg (List.not_mem_nil _)]

theorem build_frames_names_single (j : Json) (root sep : String) (vert : Bool)
    (hj : j.isObj = false ∨ vert = true) :
    (build_frames j root sep vert).map Prod.fst = [make_sheet_name root] := by
  cases j with
  | obj kvs =>
    cases vert with
    | true => simp [build_frames, uniq_empty_eq]
    | false =>
      rcases hj with hj | hj
      · simp [Json.isObj] at hj
      · simp at hj
  | arr l => cases vert <;> simp [build_frames, uniq_empty_eq]
  | null => cases vert <;> simp [build_frames, uniq_empty_eq]
  | bool b => cases vert <;> simp [build_frames, uniq_empty_eq]
  | int n => cases vert <;> simp [build_frames, uniq_empty_eq]
  | float q => cases vert <;> simp [build_frames, uniq_empty_eq]
  | str s => cases vert <;> simp [build_frames, uniq_empty_eq]

/-- C3 (amended with a size bound): for every JSON value whose mapping root
has at most `10 ^ 29` top-level entries — far beyond any representable
workbook, and in particular for every practically constructible input —
every sheet name produced by `build_frames` is non-empty, at most 31
characters, free of forbidden characters, and all names of one export are
pairwise distinct.  Beyond that size the collision suffix `_i` itself can
exceed the 31-character cap (see the counterexample). -/
theorem sheet_name_invariant_amended (j : Json) (root sep : String) (vert : Bool)
    (hsize : topEntryCount j ≤ 10 ^ 29) :
    ((build_frames j root sep vert).map Prod.fst).Nodup ∧
    (∀ n ∈ (build_frames j root sep vert).map Prod.fst, validSheetName n) := by
  have hpos : 0 < 10 ^ 29 := Nat.pos_pow_of_pos _ (by norm_num)
  by_cases hko : j.isObj = true ∧ vert = false
  · obtain ⟨hobj, hvf⟩ := hko
    subst hvf
    obtain ⟨kvs, rfl⟩ : ∃ kvs, j = Json.obj kvs := by
      cases j with
      | obj kvs => exact ⟨kvs, rfl⟩
      | null => simp [Json.isObj] at hobj
      | bool b => simp [Json.isObj] at hobj
      | int n => simp [Json.isObj] at hobj
      | float q => simp [Json.isObj] at hobj
      | str s => simp [Json.isObj] at hobj
      | arr l => simp [Json.isObj] at hobj
    have hsz : kvs.length ≤ 10 ^ 29 := hsize
    have hbudget : 0 + kvs.length < 9 * 10 ^ 29 := by omega
    have hinv := horizLoop_names_inv sep kvs [] [] [] hbudget (by simp) (by simp) (by simp)
    have hulen : (horizLoop sep kvs [] [] []).2.1.length ≤ kvs.length := by
      have := hinv.2.2.2
      simpa using this
    by_cases hsc : (horizLoop sep kvs [] [] []).2.2.isEmpty = true
    · by_cases hfe : (horizLoop sep kvs [] [] []).1.isEmpty = true
      · have hrw : build_frames (Json.obj kvs) root sep false =
            [((uniq_sheet_name root (horizLoop sep kvs [] [] []).2.1).1, emptyTable)] := by
          simp only [build_frames, Bool.false_eq_true, if_false, hsc, if_true, hfe]
        rw [hrw]
        have hspec := uniq_sheet_name_spec root (horizLoop sep kvs [] [] []).2.1 (by omega)
        constructor
        · simp
        · intro n hn
          have hne : n = (uniq_sheet_name root (horizLoop sep kvs [] [] []).2.1).1 := by
            simpa using hn
          subst hne
          exact hspec.1
      · have hfef : (horizLoop sep kvs [] [] []).1.isEmpty = false := by
          cases hb : (horizLoop sep kvs [] [] []).1.isEmpty
          · rfl
          · exact absurd hb hfe
        have hrw : build_frames (Json.obj kvs) root sep false =
            (horizLoop sep kvs [] [] []).1 := by
          simp only [build_frames, Bool.false_eq_true, if_false, hsc, if_true, hfef]
        rw [hrw]
        exact ⟨hinv.2.1, hinv.2.2.1⟩
    · have hscf : (horizLoop sep kvs [] [] []).2.2.isEmpty = false := by
        cases hb : (horizLoop sep kvs [] [] []).2.2.isEmpty
        · rfl
        · exact absurd hb hsc
      have hspec := uniq_sheet_name_spec root (horizLoop sep kvs [] [] []).2.1 (by omega)
      have hrw : build_frames (Json.obj kvs) root sep false =
          (horizLoop sep kvs [] [] []).1 ++
            [((uniq_sheet_name root (horizLoop sep kvs [] [] []).2.1).1,
              jsonNormalizeDict sep (horizLoop sep kvs [] [] []).2.2)] := by
        simp only [build_frames, Bool.false_eq_true, if_false, hscf,
          isEmpty_append_singleton]
      rw [hrw, List.map_append]
      constructor
      · apply nodup_append_singleton hinv.2.1
        intro hc
        exact hspec.2.1 (hinv.1 _ hc)
      · intro n hn
        rcases List.mem_append.mp hn with hc | hc
        · exact hinv.2.2.1 n hc
        · have hne : n = (uniq_sheet_name root (horizLoop sep kvs [] [] []).2.1).1 := by
            simpa using hc
          subst hne
          exact hspec.1
  · have hnames : (build_frames j root sep vert).map Prod.fst = [make_sheet_name root] := by
      apply build_frames_names_single
      cases hio : j.isObj with
      | false => exact Or.inl rfl
      | true =>
        cases hv : vert with
        | true => exact Or.inr rfl
        | false => exact absurd ⟨hio, hv⟩ hko
    rw [hnames]
    constructor
    · exact List.nodup_singleton _
    · intro n hn
      have hne : n = make_sheet_name root := by simpa using hn
      subst hne
      exact make_sheet_name_valid root

theorem sheet_name_invariant_amended_witness :
    topEntryCount (Json.obj [("k[", Json.obj []), ("k]", Json.obj [])]) ≤ 10 ^ 29 ∧
    ((build_frames (Json.obj [("k[", Json.obj []), ("k]", Json.obj [])])
      "data" "." false).map Prod.fst).Nodup ∧
    (∀ n ∈ (build_frames (Json.obj [("k[", Json.obj []), ("k]", Json.obj [])])
      "data" "." false).map Prod.fst, validSheetName n) :=
  ⟨by decide,
   sheet_name_invariant_amended (Json.obj [("k[", Json.obj []), ("k]", Json.obj [])])
     "data" "." false (by decide)⟩

/-! ### The C3 counterexample: a mapping large enough to overflow the cap -/

theorem cleanChar_id_of_not_forbidden {c : Char} (h : c ∉ forbiddenChars) :
    cleanChar c = c := by
  unfold cleanChar
  rw [if_neg h]

theorem digits_le_30_of_lt {n : Nat} (h : n < 10 ^ 30) :
    (natDigitsCore n n).length ≤ 30 := by
  have := (natDigitsCore_length_le_iff n n 29 le_rfl).mpr (by simpa using h)
  simpa using this

theorem msn_cexKey (t : Nat) : make_sheet_name (cexKey t) = bigB := by
  have hB : cleanChar 'B' = 'B' := by decide
  have hrep : (List.replicate 31 'B').map cleanChar = List.replicate 31 'B' := by
    rw [List.map_replicate, hB]
  have hdig : (natDigitsCore t t).map cleanChar = natDigitsCore t t := by
    have hcg : (natDigitsCore t t).map cleanChar = (natDigitsCore t t).map (fun c => c) :=
      List.map_congr_left (fun c hc => by
        have hb := natDigitsCore_digit_bounds t t c hc
        exact cleanChar_id_of_not_forbidden (digit_not_forbidden hb.1 hb.2))
    rw [hcg, List.map_id']
  show String.mk ((if ((List.replicate 31 'B' ++ natDigitsCore t t).map cleanChar) = []
      then "Sheet".data
      else ((List.replicate 31 'B' ++ natDigitsCore t t).map cleanChar)).take 31) =
    String.mk (List.replicate 31 'B')
  rw [List.map_append, hrep, hdig]
  rw [if_neg (by simp)]
  rw [List.take_append_of_le_length (by simp)]
  rw [List.take_replicate]
  norm_num

theorem candName_bigB_data (t : Nat) (hdl : (natDigitsCore t t).length ≤ 30) :
    (candName bigB t).data =
      List.replicate (30 - (natDigitsCore t t).length) 'B' ++ '_' :: natDigitsCore t t := by
  unfold candName suffixChars
  have hdata : bigB.data = List.replicate 31 'B' := rfl
  rw [show (String.mk (sliceTake bigB.data
      ((31 : Int) - ((('_' :: natDigitsCore t t) : List Char).length : Int)) ++
      '_' :: natDigitsCore t t)).data = sliceTake bigB.data
      ((31 : Int) - ((('_' :: natDigitsCore t t) : List Char).length : Int)) ++
      '_' :: natDigitsCore t t from rfl]
  rw [hdata]
  rw [sliceTake_nonneg _ _ (by simp only [List.length_cons]; omega)]
  rw [List.take_replicate]
  congr 2
  simp only [List.length_cons]
  omega

theorem len_cexName_small {u : Nat} (h1 : 1 ≤ u) (h2 : u < 10 ^ 30) :
    (cexName u).data.length = 31 := by
  unfold cexName
  by_cases hu : u = 1
  · rw [if_pos hu]
    simp [bigB]
  · rw [if_neg hu]
    have hdl := digits_le_30_of_lt h2
    rw [candName_bigB_data u hdl]
    simp only [List.length_append, List.length_replicate, List.length_cons]
    omega

theorem len_cexName_big : (cexName (10 ^ 30)).data.length = 62 := by
  unfold cexName
  rw [if_neg (by norm_num)]
  have hdl : (natDigitsCore (10 ^ 30) (10 ^ 30)).length = 31 := by
    have := natDigitsCore_length_class (le_refl (10 ^ 30))
      (Nat.pow_lt_pow_right (by norm_num) (by norm_num))
    simpa using this
  unfold candName suffixChars
  rw [show (String.mk (sliceTake bigB.data
      ((31 : Int) - ((('_' :: natDigitsCore (10 ^ 30) (10 ^ 30)) : List Char).length : Int)) ++
      '_' :: natDigitsCore (10 ^ 30) (10 ^ 30))).data = sliceTake bigB.data
      ((31 : Int) - ((('_' :: natDigitsCore (10 ^ 30) (10 ^ 30)) : List Char).length : Int)) ++
      '_' :: natDigitsCore (10 ^ 30) (10 ^ 30) from rfl]
  rw [show bigB.data = List.replicate 31 'B' from rfl]
  unfold sliceTake
  rw [if_pos (by simp only [List.length_cons, hdl]; omega)]
  rw [List.take_replicate]
  simp only [List.length_append, List.length_replicate, List.length_cons,
    List.length_cons, hdl]
  omega

theorem takeWhile_B (a : Nat) (D : List Char) :
    ((List.replicate a 'B' ++ '_' :: D).takeWhile (fun c => c == 'B')).length = a := by
  induction a with
  | zero =>
    rw [show (List.replicate 0 'B' ++ '_' :: D) = '_' :: D from rfl]
    rw [List.takeWhile_cons_of_neg (by decide)]
    rfl
  | succ a ih =>
    rw [List.replicate_succ, List.cons_append]
    rw [List.takeWhile_cons_of_pos (by decide)]
    simp [ih]

theorem underscore_not_mem_bigB : ('_' : Char) ∉ bigB.data := by
  rw [show bigB.data = List.replicate 31 'B' from rfl]
  intro hc
  have := (List.mem_replicate.mp hc).2
  exact absurd this (by decide)

theorem cexName_inj {i j : Nat} (hi1 : 1 ≤ i) (hi2 : i < 10 ^ 30) (hj1 : 1 ≤ j)
    (hj2 : j < 10 ^ 30) (h : cexName i = cexName j) : i = j := by
  have hund : ∀ {u : Nat}, 2 ≤ u → u < 10 ^ 30 → ('_' : Char) ∈ (cexName u).data := by
    intro u hu1 hu2
    unfold cexName
    rw [if_neg (by omega)]
    rw [candName_bigB_data u (digits_le_30_of_lt hu2)]
    exact List.mem_append.mpr (Or.inr (List.mem_cons_self _ _))
  by_cases hi : i = 1
  · by_cases hj : j = 1
    · omega
    · subst hi
      have h2j : 2 ≤ j := by omega
      have hmem := hund h2j hj2
      rw [← h] at hmem
      have : cexName 1 = bigB := by unfold cexName; rw [if_pos rfl]
      rw [this] at hmem
      exact absurd hmem underscore_not_mem_bigB
  · by_cases hj : j = 1
    · subst hj
      have h2i : 2 ≤ i := by omega
      have hmem := hund h2i hi2
      rw [h] at hmem
      have : cexName 1 = bigB := by unfold cexName; rw [if_pos rfl]
      rw [this] at hmem
      exact absurd hmem underscore_not_mem_bigB
    · have h2i : 2 ≤ i := by omega
      have h2j : 2 ≤ j := by omega
      have hdli := digits_le_30_of_lt hi2
      have hdlj := digits_le_30_of_lt hj2
      unfold cexName at h
      rw [if_neg (by omega), if_neg (by omega)] at h
      have hdata : (candName bigB i).data = (candName bigB j).data := congrArg String.data h
      rw [candName_bigB_data i hdli, candName_bigB_data j hdlj] at hdata
      have hlead := congrArg (fun l => (l.takeWhile (fun c => c == 'B')).length) hdata
      simp only [takeWhile_B] at hlead
      have hdleq : (natDigitsCore i i).length = (natDigitsCore j j).length := by omega
      have hrepeq : (30 - (natDigitsCore i i).length) = (30 - (natDigitsCore j j).length) := by
        omega
      rw [hrepeq] at hdata
      have hsuf := List.append_cancel_left hdata
      have hdig := List.cons_injective.eq_iff.mp hsuf
      exact natDigitsCore_injective hdig

/-- The sheet name registered for the first `t` keys of the counterexample
mapping, most recent first (the model conses onto the used set). -/
theorem cexUsed_zero : (((List.range' 1 0).map cexName).reverse : List String) = [] := rfl

theorem cexUsed_succ (t : Nat) :
    ((List.range' 1 (t + 1)).map cexName).reverse =
      cexName (t + 1) :: ((List.range' 1 t).map cexName).reverse := by
  rw [List.range'_concat, List.map_append, List.reverse_append]
  simp [Nat.add_comm]

theorem mem_cexUsed {t x : Nat} (h1 : 1 ≤ x) (h2 : x ≤ t) :
    cexName x ∈ ((List.range' 1 t).map cexName).reverse := by
  rw [List.mem_reverse]
  exact List.mem_map.mpr ⟨x, List.mem_range'_1.mpr (by omega), rfl⟩

theorem cexName_fresh {t : Nat} (h2 : t + 1 ≤ 10 ^ 30)
    (hmem : cexName (t + 1) ∈ ((List.range' 1 t).map cexName).reverse) : False := by
  rw [List.mem_reverse] at hmem
  obtain ⟨u, hu, hequ⟩ := List.mem_map.mp hmem
  rw [List.mem_range'_1] at hu
  by_cases hend : t + 1 = 10 ^ 30
  · have hlu : (cexName u).data.length = 31 := len_cexName_small hu.1 (by omega)
    have hlb : (cexName (t + 1)).data.length = 62 := by
      rw [hend]
      exact len_cexName_big
    rw [hequ] at hlu
    omega
  · have := cexName_inj hu.1 (by omega) (by omega : 1 ≤ t + 1) (by omega) hequ
    omega

theorem uniqLoop_exact (name : String) (used : List String) :
    ∀ (fuel i m : Nat), i ≤ m → m - i < fuel →
      (∀ j, i ≤ j → j < m → candName name j ∈ used) →
      candName name m ∉ used →
      uniqLoop name used i fuel = candName name m := by
  intro fuel
  induction fuel with
  | zero =>
    intro i m h1 h2 _ _
    omega
  | succ fuel ih =>
    intro i m h1 h2 hblocked hfresh
    by_cases hi : i = m
    · subst hi
      simp only [uniqLoop, if_neg hfresh]
    · have hmemi : candName name i ∈ used := hblocked i le_rfl (by omega)
      simp only [uniqLoop, if_pos hmemi]
      exact ih (i + 1) m (by omega) (by omega)
        (fun j hj1 hj2 => hblocked j (by omega) hj2) hfresh

theorem horizLoop_append (sep : String) :
    ∀ (l₁ l₂ : List (String × Json)) (frames : List (String × Table Json))
      (used : List String) (scalars : List (String × Json)),
      horizLoop sep (l₁ ++ l₂) frames used scalars =
        horizLoop sep l₂ (horizLoop sep l₁ frames used scalars).1
          (horizLoop sep l₁ frames used scalars).2.1
          (horizLoop sep l₁ frames used scalars).2.2 := by
  intro l₁
  induction l₁ with
  | nil => intro l₂ frames used scalars; rfl
  | cons kv l₁ ih =>
    intro l₂ frames used scalars
    obtain ⟨k, v⟩ := kv
    cases v with
    | null => rw [List.cons_append]; simp only [horizLoop]; exact ih _ _ _ _
    | bool b => rw [List.cons_append]; simp only [horizLoop]; exact ih _ _ _ _
    | int n => rw [List.cons_append]; simp only [horizLoop]; exact ih _ _ _ _
    | float q => rw [List.cons_append]; simp only [horizLoop]; exact ih _ _ _ _
    | str s => rw [List.cons_append]; simp only [horizLoop]; exact ih _ _ _ _
    | arr l => rw [List.cons_append]; simp only [horizLoop]; exact ih _ _ _ _
    | obj o => rw [List.cons_append]; simp only [horizLoop]; exact ih _ _ _ _

theorem cex_step_zero : uniq_sheet_name (cexKey 1) [] = (bigB, [bigB]) := by
  rw [uniq_empty_eq, msn_cexKey]

theorem cex_step (t : Nat) (h1 : 1 ≤ t) (h2 : t + 1 ≤ 10 ^ 30) :
    uniq_sheet_name (cexKey (t + 1)) (((List.range' 1 t).map cexName).reverse) =
      (cexName (t + 1), cexName (t + 1) :: ((List.range' 1 t).map cexName).reverse) := by
  have hcand : cexName (t + 1) = candName bigB (t + 1) := by
    unfold cexName
    rw [if_neg (by omega)]
  have hmem : bigB ∈ ((List.range' 1 t).map cexName).reverse := by
    have := mem_cexUsed (le_refl 1) h1
    have h1eq : cexName 1 = bigB := by unfold cexName; rw [if_pos rfl]
    rw [h1eq] at this
    exact this
  have hlen : (((List.range' 1 t).map cexName).reverse).length = t := by
    simp
  unfold uniq_sheet_name
  rw [msn_cexKey, if_pos hmem]
  have hexact := uniqLoop_exact bigB (((List.range' 1 t).map cexName).reverse)
    (10 ^ ((((List.range' 1 t).map cexName).reverse).length + 1)) 2 (t + 1)
    (by omega) ?_ ?_ ?_
  · rw [hexact, hcand]
  · rw [hlen]
    have : t + 1 < 10 ^ (t + 1) := Nat.lt_pow_self (by norm_num) _
    omega
  · intro j hj1 hj2
    have hj : cexName j = candName bigB j := by
      unfold cexName
      rw [if_neg (by omega)]
    rw [← hj]
    exact mem_cexUsed (by omega) (by omega)
  · intro hc
    rw [← hcand] at hc
    exact cexName_fresh h2 hc

theorem cex_horizLoop : ∀ t, t ≤ 10 ^ 30 →
    horizLoop "." ((List.range' 1 t).map (fun u => (cexKey u, Json.obj []))) [] [] [] =
      ((List.range' 1 t).map (fun u => (cexName u, jsonNormalizeDict "." [])),
       ((List.range' 1 t).map cexName).reverse, []) := by
  intro t
  induction t with
  | zero => intro _; rfl
  | succ t ih =>
    intro ht
    have ht' : t ≤ 10 ^ 30 := by omega
    rw [List.range'_concat, List.map_append, List.map_append, horizLoop_append, ih ht']
    have honem : 1 + 1 * t = t + 1 := by omega
    rw [honem]
    simp only [List.map_cons, List.map_nil]
    simp only [horizLoop]
    cases t with
    | zero =>
      rw [show (((List.range' 1 0).map cexName).reverse : List String) = [] from rfl]
      rw [cex_step_zero]
      have h1eq : cexName 1 = bigB := by unfold cexName; rw [if_pos rfl]
      simp [h1eq]
    | succ s =>
      rw [cex_step (s + 1) (by omega) (by omega)]
      simp [cexUsed_succ]

theorem build_frames_horiz_result (kvs : List (String × Json)) (root sep : String)
    (hsc : (horizLoop sep kvs [] [] []).2.2.isEmpty = true)
    (hfe : (horizLoop sep kvs [] [] []).1.isEmpty = false) :
    build_frames (Json.obj kvs) root sep false = (horizLoop sep kvs [] [] []).1 := by
  simp only [build_frames, Bool.false_eq_true, if_false, hsc, if_true, hfe]

/-- C3 counterexample: the claim as stated fails on an (astronomically
large but explicit) mapping whose `10 ^ 30` keys all normalise to the same
31-character sheet name: the collision counter reaches `10 ^ 30`, whose
32-character suffix makes the final sheet name 62 characters long. -/
theorem sheet_name_invariant_counterexample :
    ∃ n ∈ (build_frames cexJson "data" "." false).map Prod.fst,
      31 < n.data.length := by
  have hmain := cex_horizLoop (10 ^ 30) le_rfl
  have hpow : (10 : Nat) ^ 30 ≠ 0 := by norm_num
  have hne : ((List.range' 1 (10 ^ 30)).map
      (fun u => (cexName u, jsonNormalizeDict "." []))).isEmpty = false := by
    apply isEmpty_false_of_ne_nil
    intro hc
    rw [List.map_eq_nil_iff] at hc
    rw [List.range'_eq_nil] at hc
    exact hpow hc
  have hsc : (horizLoop "." ((List.range' 1 (10 ^ 30)).map
      (fun t => (cexKey t, Json.obj []))) [] [] []).2.2.isEmpty = true := by
    rw [hmain]
    rfl
  have hfe : (horizLoop "." ((List.range' 1 (10 ^ 30)).map
      (fun t => (cexKey t, Json.obj []))) [] [] []).1.isEmpty = false := by
    rw [hmain]
    exact hne
  have hrw : build_frames cexJson "data" "." false =
      (List.range' 1 (10 ^ 30)).map (fun u => (cexName u, jsonNormalizeDict "." [])) := by
    show build_frames (Json.obj ((List.range' 1 (10 ^ 30)).map
      (fun t => (cexKey t, Json.obj [])))) "data" "." false = _
    rw [build_frames_horiz_result _ "data" "." hsc hfe, hmain]
  rw [hrw]
  refine ⟨cexName (10 ^ 30), ?_, ?_⟩
  · rw [List.map_map]
    apply List.mem_map.mpr
    refine ⟨10 ^ 30, List.mem_range'_1.mpr ⟨by norm_num, by omega⟩, by simp⟩
  · rw [len_cexName_big]
    omega

/-! ## Claim C10: vertical export of the empty mapping -/

/-- C10: exporting the empty mapping in vertical mode yields exactly one
table with no columns and no rows (in particular no Key and no Value
column), and importing that table back triggers the
missing-required-columns failure instead of reconstructing the empty
mapping. -/
theorem empty_mapping_vertical_export (root sep : String) :
    build_frames (Json.obj []) root sep true = [(make_sheet_name root, emptyTable)] ∧
    read_excel_to_json (toITable (firstSheet (build_frames (Json.obj []) root sep true))) =
      Except.error missingColsMsg := by
  have h1 : build_frames (Json.obj []) root sep true = [(make_sheet_name root, emptyTable)] := by
    simp [build_frames, uniq_sheet_name, flatten_dict, flattenItems_nil, listToDict,
      verticalTable]
  refine ⟨h1, ?_⟩
  rw [h1]
  simp [firstSheet, toITable, emptyTable, read_excel_to_json]

end CopilotConv
